import Mathlib

/-!
# gofreetds: parameter binding for `ExecuteSql`

A shallow embedding of `executesql.go`: the placeholder rewriter
(`query2Statement`), the statement quoter (`quote`), the value encoder
(`go2SqlDataType`), the parameter list builder (`parseParams`) and the two
dialect paths of `Conn.ExecuteSql`.

Go strings are byte sequences, so a Go `string` is a list of bytes here and
`len` is the list length.  The functions of Go's `strings`, `fmt` and `regexp`
packages that the program calls are modelled by their documented behaviour on
the arguments the program gives them.
-/

namespace Freetds

/-! ## Go strings and the library functions the program calls -/

/-- A byte of a Go string. -/
abbrev Byte := UInt8

/-- A Go `string`: an immutable sequence of bytes. -/
abbrev GoString := List Byte

/-- A Go `error` value, carried as its message. -/
abbrev GoError := GoString

/-- The bytes (UTF-8) of a string literal of the source. -/
def lit (s : String) : GoString := (s.toList.map String.utf8EncodeChar).flatten

/-- Whether `s` begins with `p` (Go `strings.HasPrefix`). -/
def startsWith {α : Type} [DecidableEq α] : List α → List α → Bool
  | _, [] => true
  | [], _ :: _ => false
  | a :: s, b :: p => decide (a = b) && startsWith s p

/-- Go `strings.Index(s, substr)`: the offset of the first occurrence of
`substr` in `s`; `none` stands for `-1`. -/
def Index {α : Type} [DecidableEq α] (s substr : List α) : Option Nat :=
  if startsWith s substr then some 0 else
  match s with
  | [] => none
  | _ :: t => (Index t substr).map (· + 1)

/-- The loop of Go `strings.Count`: find the next occurrence, count it and go on
after it.  The fuel bounds the number of iterations. -/
def countLoop {α : Type} [DecidableEq α] (substr : List α) : Nat → List α → Nat
  | 0, _ => 0
  | fuel + 1, s =>
    match Index s substr with
    | none => 0
    | some i => 1 + countLoop substr fuel (s.drop (i + substr.length))

/-- Go `strings.Count(s, substr)` for a non-empty `substr` (the program only
passes non-empty ones): the number of non-overlapping occurrences.  Every
occurrence consumes at least one byte, so `len(s)` iterations are enough. -/
def Count {α : Type} [DecidableEq α] (s substr : List α) : Nat :=
  countLoop substr s.length s

/-- The loop of Go `strings.genSplit`: `n` more separators are cut off. -/
def splitLoop {α : Type} [DecidableEq α] (sep : List α) : Nat → List α → List (List α)
  | 0, s => [s]
  | n + 1, s =>
    match Index s sep with
    | none => [s]
    | some m => s.take m :: splitLoop sep n (s.drop (m + sep.length))

/-- Go `strings.Split(s, sep)` for a non-empty `sep`: `genSplit(s, sep, 0, -1)`,
which sets `n = Count(s, sep) + 1` and cuts `n - 1` times. -/
def Split {α : Type} [DecidableEq α] (s sep : List α) : List (List α) :=
  splitLoop sep (Count s sep) s

/-- The loop of Go `strings.Replace`: `n` more occurrences are replaced. -/
def replaceLoop {α : Type} [DecidableEq α] (old new : List α) : Nat → List α → List α
  | 0, s => s
  | n + 1, s =>
    match Index s old with
    | none => s
    | some j => s.take j ++ new ++ replaceLoop old new n (s.drop (j + old.length))

/-- Go `strings.Replace(s, old, new, n)` for a non-empty `old`: the first `n`
non-overlapping occurrences of `old` are replaced by `new`, all of them when
`n < 0`. -/
def Replace {α : Type} [DecidableEq α] (s old new : List α) (n : Int) : List α :=
  if old = new ∨ n = 0 then s
  else
    let m := Count s old
    if m = 0 then s
    else replaceLoop old new (if n < 0 ∨ (m : Int) < n then m else n.toNat) s

/-- The matches of a regular expression that is one literal text: leftmost
first, the search going on after the end of each match.  Each match is given
as its (start, end) offsets. -/
def findAllLoop {α : Type} [DecidableEq α] (pat : List α) :
    Nat → Nat → List α → List (Nat × Nat)
  | 0, _, _ => []
  | fuel + 1, off, s =>
    match Index s pat with
    | none => []
    | some m =>
      (off + m, off + m + pat.length) ::
        findAllLoop pat fuel (off + m + pat.length) (s.drop (m + pat.length))

/-- Go `regexp.FindAllSubmatchIndex(b, -1)` for the pattern
`(?P<bindkey>\$bindkey)`, which matches the literal text `pat` and nothing
else.  The group offsets repeat the match offsets and are left out. -/
def FindAllSubmatchIndex {α : Type} [DecidableEq α] (pat s : List α) : List (Nat × Nat) :=
  findAllLoop pat s.length 0 s

/-- The decimal digit `d` as a byte. -/
def digitByte (d : Nat) : Byte := UInt8.ofNat (48 + d)

/-- Decimal digits of `n`, most significant first, in front of `acc`. -/
def formatUintLoop : Nat → Nat → GoString → GoString
  | 0, _, acc => acc
  | fuel + 1, n, acc =>
    if n < 10 then digitByte n :: acc
    else formatUintLoop fuel (n / 10) (digitByte (n % 10) :: acc)

/-- The verb `%d` (and `%v`) of Go `fmt` on a non-negative integer. -/
def formatUint (n : Nat) : GoString := formatUintLoop (n + 1) n []

/-- The verb `%d` (and `%v`) of Go `fmt` on a signed integer. -/
def formatInt (z : Int) : GoString :=
  if z < 0 then 45 :: formatUint z.natAbs else formatUint z.natAbs

/-- A lowercase hexadecimal digit as a byte. -/
def hexDigit (d : Nat) : Byte :=
  if d < 10 then UInt8.ofNat (48 + d) else UInt8.ofNat (87 + d)

/-- The verb `%x` of Go `fmt` on a byte slice: two lowercase digits a byte. -/
def formatHex (b : List Byte) : GoString :=
  b.flatMap (fun x => [hexDigit (x.toNat / 16), hexDigit (x.toNat % 16)])

/-! ## Values -/

/-- A Go `time.Time`: seconds and nanoseconds since the epoch and the zone
offset in seconds. -/
structure GoTime where
  sec : Int
  nsec : Nat
  offset : Int
  deriving DecidableEq, Repr

/-- The renderings of Go's library that the encoder calls and that are not
computed here: floating-point and time formatting.  A float is given by the
bits of its IEEE representation. -/
structure Fmt where
  /-- The verb `%v` on a `float32`. -/
  float32 : Nat → GoString
  /-- The verb `%v` on a `float64`. -/
  float64 : Nat → GoString
  /-- The verb `%v` on a `time.Time` (its `String()`). -/
  timeString : GoTime → GoString
  /-- The call `t.Format(time.RFC3339Nano)`. -/
  rfc3339Nano : GoTime → GoString

/-- A value passed as `driver.Value` / `interface{}`: its dynamic type and the
value.  A nullable wrapper carries its payload and its `Valid` flag; a pointer
is `none` when nil.  `other` stands for a value of any type that the type
switches of `go2SqlDataType` do not list, with the texts that `%T` and `%v` give
for it. -/
inductive GoValue where
  | nil
  | bool (b : Bool)
  | uint8 (v : Nat)
  | int8 (v : Int)
  | uint16 (v : Nat)
  | int16 (v : Int)
  | uint32 (v : Nat)
  | int32 (v : Int)
  | int (v : Int)
  | uint64 (v : Nat)
  | int64 (v : Int)
  | float32 (bits : Nat)
  | float64 (bits : Nat)
  | string (s : GoString)
  | time (t : GoTime)
  | bytes (b : List Byte)
  | nullBool (v : Bool) (valid : Bool)
  | nullFloat64 (bits : Nat) (valid : Bool)
  | nullInt32 (v : Int) (valid : Bool)
  | nullInt64 (v : Int) (valid : Bool)
  | nullString (s : GoString) (valid : Bool)
  | nullTime (t : GoTime) (valid : Bool)
  | ptrBool (p : Option Bool)
  | ptrUint8 (p : Option Nat)
  | ptrInt8 (p : Option Int)
  | ptrUint16 (p : Option Nat)
  | ptrInt16 (p : Option Int)
  | ptrUint32 (p : Option Nat)
  | ptrInt32 (p : Option Int)
  | ptrInt (p : Option Int)
  | ptrUint64 (p : Option Nat)
  | ptrInt64 (p : Option Int)
  | ptrFloat32 (p : Option Nat)
  | ptrFloat64 (p : Option Nat)
  | ptrString (p : Option GoString)
  | ptrTime (p : Option GoTime)
  | ptrBytes (p : Option (List Byte))
  | other (typeName : GoString) (text : GoString)
  deriving DecidableEq

/-- What `go2SqlDataType` returns: the SQL type, the literal text and the
error (`none` for a nil error). -/
abbrev Encoded := GoString × GoString × Option GoError

/-- How a type switch of `go2SqlDataType` ends: with a `return` of the
function, or by leaving the switch with a value. -/
inductive Flow (α : Type) where
  | ret (r : Encoded)
  | go (a : α)

/-- The text of the verb `%T`: the name of the dynamic type. -/
def typeName : GoValue → GoString
  | .nil => lit "<nil>"
  | .bool _ => lit "bool"
  | .uint8 _ => lit "uint8"
  | .int8 _ => lit "int8"
  | .uint16 _ => lit "uint16"
  | .int16 _ => lit "int16"
  | .uint32 _ => lit "uint32"
  | .int32 _ => lit "int32"
  | .int _ => lit "int"
  | .uint64 _ => lit "uint64"
  | .int64 _ => lit "int64"
  | .float32 _ => lit "float32"
  | .float64 _ => lit "float64"
  | .string _ => lit "string"
  | .time _ => lit "time.Time"
  | .bytes _ => lit "[]uint8"
  | .nullBool _ _ => lit "sql.NullBool"
  | .nullFloat64 _ _ => lit "sql.NullFloat64"
  | .nullInt32 _ _ => lit "sql.NullInt32"
  | .nullInt64 _ _ => lit "sql.NullInt64"
  | .nullString _ _ => lit "sql.NullString"
  | .nullTime _ _ => lit "sql.NullTime"
  | .ptrBool _ => lit "*bool"
  | .ptrUint8 _ => lit "*uint8"
  | .ptrInt8 _ => lit "*int8"
  | .ptrUint16 _ => lit "*uint16"
  | .ptrInt16 _ => lit "*int16"
  | .ptrUint32 _ => lit "*uint32"
  | .ptrInt32 _ => lit "*int32"
  | .ptrInt _ => lit "*int"
  | .ptrUint64 _ => lit "*uint64"
  | .ptrInt64 _ => lit "*int64"
  | .ptrFloat32 _ => lit "*float32"
  | .ptrFloat64 _ => lit "*float64"
  | .ptrString _ => lit "*string"
  | .ptrTime _ => lit "*time.Time"
  | .ptrBytes _ => lit "*[]uint8"
  | .other name _ => name

/-- The text of `fmt.Sprintf("%v", value)` at line 265.  The two switches
before that line have replaced every nullable wrapper and every listed pointer
by its payload or have returned, so no text is given for those here; the
encoder reads the text for booleans, integers, floats and strings only. -/
def sprintV (F : Fmt) : GoValue → GoString
  | .nil => lit "<nil>"
  | .bool b => if b then lit "true" else lit "false"
  | .uint8 v => formatUint v
  | .int8 v => formatInt v
  | .uint16 v => formatUint v
  | .int16 v => formatInt v
  | .uint32 v => formatUint v
  | .int32 v => formatInt v
  | .int v => formatInt v
  | .uint64 v => formatUint v
  | .int64 v => formatInt v
  | .float32 x => F.float32 x
  | .float64 x => F.float64 x
  | .string s => s
  | .time t => F.timeString t
  | .bytes b => lit "[" ++ (lit " ").intercalate (b.map (fun x => formatUint x.toNat)) ++ lit "]"
  | .other _ text => text
  | _ => []

/-! ## The program -/

/-- The constant `statusRow` (lines 13-16). -/
def statusRow : GoString :=
  lit ";\n   select cast(coalesce(scope_identity(), -1) as bigint) last_insert_id, \n          cast(@@rowcount as bigint) rows_affected\n"

/-- The constant `statusRowSybase125` (lines 17-20). -/
def statusRowSybase125 : GoString :=
  lit "\n   select cast(coalesce(@@IDENTITY, -1) as int) last_insert_id, \n          cast(@@rowcount as int) rows_affected\n"

/-- The function `quote` (lines 109-111). -/
def quote (s : GoString) : GoString :=
  Replace s (lit "'") (lit "''") (-1)

/-- The loop of `query2Statement` (lines 82-86): `i` is the index of the next
part. -/
def query2StatementLoop : Nat → List GoString → GoString → GoString
  | _, [], statement => statement
  | i, part :: rest, statement =>
    query2StatementLoop (i + 1) rest
      (if i > 0 then statement ++ lit "@p" ++ formatUint i ++ part else statement)

/-- The function `query2Statement` (lines 77-88).  `none` is the run-time panic
of `parts[0]` on an empty slice. -/
def query2Statement (query : GoString) : Option (GoString × Nat) :=
  let parts := Split query (lit "?")
  let numParams := parts.length - 1
  match parts[0]? with
  | none => none
  | some first =>
    let statement := query2StatementLoop 0 parts first
    some (quote statement, numParams)

/-- The local function `max` of `go2SqlDataType` (lines 114-119). -/
def go2SqlDataType.max (a b : Nat) : Nat := if a > b then a else b

/-- The first type switch of `go2SqlDataType` (lines 121-167), on the
nullable wrappers of `database/sql`: it returns, or leaves the value to
go on with and the flag `isSQLType`. -/
def go2SqlDataType.sqlSwitch : GoValue → Flow (GoValue × Bool)
  | .nullBool v valid =>
    if valid then .go (.bool v, true) else .ret (lit "bit", lit "NULL", none)
  | .nullFloat64 v valid =>
    if valid then .go (.float64 v, true) else .ret (lit "real", lit "NULL", none)
  | .nullInt32 v valid =>
    if valid then .go (.int32 v, true) else .ret (lit "int", lit "NULL", none)
  | .nullInt64 v valid =>
    if valid then .go (.int64 v, true) else .ret (lit "bigint", lit "NULL", none)
  | .nullString v valid =>
    if valid then .go (.string v, true) else .ret (lit "nvarchar (1)", lit "NULL", none)
  | .nullTime v valid =>
    if valid then .go (.time v, true) else .ret (lit "datetimeoffset", lit "NULL", none)
  | value => .go (value, false)

/-- One case of the pointer switch: a nil pointer returns the SQL type with
`NULL`, any other is dereferenced. -/
def go2SqlDataType.deref {α : Type} (sqlType : GoString) (mk : α → GoValue) :
    Option α → Flow GoValue
  | none => .ret (sqlType, lit "NULL", none)
  | some v => .go (mk v)

/-- The second type switch of `go2SqlDataType` (lines 170-261), on
pointers. -/
def go2SqlDataType.pointerSwitch : GoValue → Flow GoValue
  | .ptrBool t => go2SqlDataType.deref (lit "bit") .bool t
  | .ptrUint8 t => go2SqlDataType.deref (lit "tinyint") .uint8 t
  | .ptrInt8 t => go2SqlDataType.deref (lit "tinyint") .int8 t
  | .ptrUint16 t => go2SqlDataType.deref (lit "smallint") .uint16 t
  | .ptrInt16 t => go2SqlDataType.deref (lit "smallint") .int16 t
  | .ptrUint32 t => go2SqlDataType.deref (lit "int") .uint32 t
  | .ptrInt32 t => go2SqlDataType.deref (lit "int") .int32 t
  | .ptrInt t => go2SqlDataType.deref (lit "int") .int t
  | .ptrUint64 t => go2SqlDataType.deref (lit "bigint") .uint64 t
  | .ptrInt64 t => go2SqlDataType.deref (lit "bigint") .int64 t
  | .ptrFloat32 t => go2SqlDataType.deref (lit "real") .float32 t
  | .ptrFloat64 t => go2SqlDataType.deref (lit "real") .float64 t
  | .ptrString t => go2SqlDataType.deref (lit "nvarchar (1)") .string t
  | .ptrTime t => go2SqlDataType.deref (lit "datetimeoffset") .time t
  | .ptrBytes t => go2SqlDataType.deref (lit "varbinary (1)") .bytes t
  | value => .go value

/-- The last type switch of `go2SqlDataType` and the return after it
(lines 265-303). -/
def go2SqlDataType.classify (F : Fmt) (value : GoValue) : Encoded :=
  let strValue := sprintV F value
  match value with
  | .nil => (lit "nvarchar (1)", lit "NULL", none)
  | .bool _ => (lit "bit", if strValue = lit "true" then lit "1" else lit "0", none)
  | .uint8 _ | .int8 _ => (lit "tinyint", strValue, none)
  | .uint16 _ | .int16 _ => (lit "smallint", strValue, none)
  | .uint32 _ | .int32 _ | .int _ => (lit "int", strValue, none)
  | .uint64 _ | .int64 _ => (lit "bigint", strValue, none)
  | .float32 _ | .float64 _ => (lit "real", strValue, none)
  | .string _ =>
    (lit "nvarchar (" ++ formatUint (go2SqlDataType.max 1 strValue.length) ++ lit ")",
      lit "'" ++ quote strValue ++ lit "'", none)
  | .time t =>
    (lit "datetimeoffset", lit "'" ++ quote (F.rfc3339Nano t) ++ lit "'", none)
  | .bytes b =>
    (lit "varbinary (" ++ formatUint (go2SqlDataType.max 1 b.length) ++ lit ")",
      lit "0x" ++ formatHex b, none)
  | t => (lit "", lit "", some (lit "unknown dataType " ++ typeName t))

/-- The function `go2SqlDataType` (lines 113-305). -/
def go2SqlDataType (F : Fmt) (value : GoValue) : Encoded :=
  match go2SqlDataType.sqlSwitch value with
  | .ret r => r
  | .go (value, isSQLType) =>
    match (if !isSQLType then go2SqlDataType.pointerSwitch value else .go value) with
    | .ret r => r
    | .go value => go2SqlDataType.classify F value

/-- The loop of `parseParams` (lines 93-105): `i` is the index of the next
parameter. -/
def parseParamsLoop (F : Fmt) :
    Nat → List GoValue → GoString → GoString → GoString × GoString × Option GoError
  | _, [], paramDef, paramVal => (paramDef, paramVal, none)
  | i, param :: rest, paramDef, paramVal =>
    let paramVal := if i > 0 then paramVal ++ lit ", " else paramVal
    let paramDef := if i > 0 then paramDef ++ lit ", " else paramDef
    match go2SqlDataType F param with
    | (_, _, some err) => (lit "", lit "", some err)
    | (sqlType, sqlValue, none) =>
      let paramName := lit "@p" ++ formatUint (i + 1)
      parseParamsLoop F (i + 1) rest
        (paramDef ++ (paramName ++ lit " " ++ sqlType))
        (paramVal ++ (paramName ++ lit "=" ++ sqlValue))

/-- The function `parseParams` (lines 90-107). -/
def parseParams (F : Fmt) (params : List GoValue) : GoString × GoString × Option GoError :=
  parseParamsLoop F 0 params (lit "") (lit "")

/-- A connection, as far as `ExecuteSql` reads it: the dialect flag that
`conn.sybaseMode125()` answers, and the commands handed to `conn.Exec` so far,
oldest first. -/
structure Conn where
  sybase : Bool
  sent : List GoString
  deriving DecidableEq

/-- Modelled from the spec: `conn.sybaseMode125()`, defined outside
`executesql.go`; the read-only dialect flag of the connection. -/
def Conn.sybaseMode125 (conn : Conn) : Bool := conn.sybase

/-- Modelled from the spec: `conn.Exec(sql)`, defined outside `executesql.go`;
the execution collaborator takes one command text and answers with result sets
or an error.  The server `srv` answers from the commands it got before and the
new one; the connection records the command. -/
def Conn.Exec {R : Type} (srv : List GoString → GoString → Except GoError R)
    (conn : Conn) (sql : GoString) : Conn × Except GoError R :=
  ({ conn with sent := conn.sent ++ [sql] }, srv conn.sent sql)

/-- The error of lines 31 and 55:
`fmt.Errorf("Incorrect number of params, expecting %d got %d", ...)`. -/
def paramCountError (numParams len : Nat) : GoError :=
  lit "Incorrect number of params, expecting " ++ formatUint numParams ++
    lit " got " ++ formatUint len

/-- The loop of `executeSqlSybase125` (lines 63-66) over the matches: `i` is
the index of the next match.  `none` is the run-time panic of `params[i]` with
`i` out of range. -/
def executeSqlSybase125Loop (F : Fmt) (params : List GoValue) :
    Nat → List (Nat × Nat) → GoString → Option GoString
  | _, [], sql => some sql
  | i, _ :: rest, sql =>
    match params[i]? with
    | none => none
    | some param =>
      let escapedValue := (go2SqlDataType F param).2.1
      executeSqlSybase125Loop F params (i + 1) rest
        (Replace sql (lit "$bindkey") escapedValue 1)

/-- The method `executeSqlSybase125` (lines 52-72).  The result is the
connection afterwards with what the method returns; `none` is a run-time
panic. -/
def executeSqlSybase125 {R : Type} (F : Fmt)
    (srv : List GoString → GoString → Except GoError R)
    (conn : Conn) (query : GoString) (params : List GoValue) :
    Option (Conn × Except GoError R) :=
  match query2Statement query with
  | none => none
  | some (statement, numParams) =>
    if numParams ≠ params.length then
      some (conn, .error (paramCountError numParams params.length))
    else
      let statement := statement ++ statusRowSybase125
      let sql := Replace query (lit "?") (lit "$bindkey") (-1)
      let found := FindAllSubmatchIndex (lit "$bindkey") sql
      match executeSqlSybase125Loop F params 0 found sql with
      | none => none
      | some sql =>
        let sql := if numParams = 0 then statement else sql
        some (conn.Exec srv sql)

/-- The method `ExecuteSql` (lines 25-50).  The result is the connection
afterwards with what the method returns; `none` is a run-time panic.  The
calls of `log.Printf` write to the log only and are left out. -/
def ExecuteSql {R : Type} (F : Fmt)
    (srv : List GoString → GoString → Except GoError R)
    (conn : Conn) (query : GoString) (params : List GoValue) :
    Option (Conn × Except GoError R) :=
  if conn.sybaseMode125 then executeSqlSybase125 F srv conn query params
  else
    match query2Statement query with
    | none => none
    | some (statement, numParams) =>
      if numParams ≠ params.length then
        some (conn, .error (paramCountError numParams params.length))
      else
        match parseParams F params with
        | (_, _, some err) => some (conn, .error err)
        | (paramDef, paramVal, none) =>
          let statement := statement ++ statusRow
          let sql := lit "exec sp_executesql N'" ++ statement ++ lit "', N'" ++ paramDef ++
            lit "', " ++ paramVal
          let sql := if numParams = 0 then lit "exec sp_executesql N'" ++ statement ++ lit "'"
            else sql
          some (conn.Exec srv sql)

/-! ## The specification side -/

/-- The question mark, the placeholder token. -/
def qmark : Byte := 63

/-- The single quote. -/
def squote : Byte := 39

/-- The texts "@p" i p_i "@p" (i+1) p_(i+1) ... for the pieces after the first
placeholder: each placeholder is the bind name with its number, followed by the
piece behind it. -/
def numberedPieces : Nat → List GoString → GoString
  | _, [] => []
  | i, p :: ps => lit "@p" ++ formatUint i ++ p ++ numberedPieces (i + 1) ps

/-- The entries `@pN <sqlType>` of the parameter declarations, numbered from
`i` in argument order. -/
def paramDecls (F : Fmt) : Nat → List GoValue → List GoString
  | _, [] => []
  | i, a :: rest =>
    (lit "@p" ++ formatUint i ++ lit " " ++ (go2SqlDataType F a).1) :: paramDecls F (i + 1) rest

/-- The entries `@pN=<literal>` of the parameter assignments, numbered from
`i` in argument order. -/
def paramAssigns (F : Fmt) : Nat → List GoValue → List GoString
  | _, [] => []
  | i, a :: rest =>
    (lit "@p" ++ formatUint i ++ lit "=" ++ (go2SqlDataType F a).2.1) ::
      paramAssigns F (i + 1) rest

/-- The dollar sign, the first byte of the marker text `$bindkey`. -/
def dollar : Byte := 36

/-- The texts l1 p1 l2 p2 ... for the pieces after the first placeholder: each
placeholder is the literal that `go2SqlDataType` gives for its own argument,
followed by the piece behind it. -/
def substituted (F : Fmt) : List GoValue → List GoString → GoString
  | a :: rest, p :: ps => (go2SqlDataType F a).2.1 ++ p ++ substituted F rest ps
  | _, _ => []

/-- The commands handed to `conn.Exec` when a call is over; `none` after a
panic. -/
def sentAfter {R : Type} (r : Option (Conn × Except GoError R)) : Option (List GoString) :=
  r.map (fun x => x.1.sent)

/-- A formatter for examples without floats and times: it gives the empty
text. -/
def Fmt.blank : Fmt := ⟨fun _ => [], fun _ => [], fun _ => [], fun _ => []⟩

/-- A server for examples: it accepts every command and has nothing to
answer. -/
def okServer : List GoString → GoString → Except GoError Unit := fun _ _ => .ok ()

/-- Replacing every `c` by `new`, one element at a time: the reference
definition of replacing every occurrence of a one-byte text. -/
def replaceEach {α : Type} [DecidableEq α] (c : α) (new : List α) (s : List α) : List α :=
  s.flatMap (fun x => if x = c then new else [x])

/-- The decimal text of a natural number: its digits in base ten, most
significant first, and the digit 0 for zero. -/
def decimalDigits (n : Nat) : GoString :=
  if n = 0 then [digitByte 0] else (Nat.digits 10 n).reverse.map digitByte

/-- The decimal text of an integer: a minus sign in front of a negative one. -/
def decimalText (z : Int) : GoString :=
  if z < 0 then 45 :: decimalDigits z.natAbs else decimalDigits z.natAbs

/-- The lowercase hexadecimal digit of the nibble `d`: the byte at place `d`
of the text `0123456789abcdef`. -/
def nibbleChar (d : Nat) : Byte := (lit "0123456789abcdef").getD d 0

/-- The nibble that a lowercase hexadecimal digit stands for. -/
def hexValue (c : Byte) : Option Nat :=
  let i := (lit "0123456789abcdef").indexOf c
  if i < 16 then some i else none

/-- Hex-decoding: every two digits give one byte, high nibble first. -/
def hexDecode : GoString → Option (List Byte)
  | [] => some []
  | [_] => none
  | hi :: lo :: rest =>
    match hexValue hi, hexValue lo, hexDecode rest with
    | some h, some l, some bs => some (UInt8.ofNat (16 * h + l) :: bs)
    | _, _, _ => none

/-- Replacing, left to right, each pair of consecutive single quotes by one
single quote. -/
def unquote : GoString → GoString
  | [] => []
  | [x] => [x]
  | x :: y :: t =>
    if x = squote ∧ y = squote then squote :: unquote t else x :: unquote (y :: t)

/-- Whether a text, read left to right, is made of bytes other than the
single quote and of pairs of single quotes. -/
def wellQuoted : GoString → Bool
  | [] => true
  | [x] => decide (x ≠ squote)
  | x :: y :: t =>
    if x = squote then decide (y = squote) && wellQuoted t else wellQuoted (y :: t)

/-! ## Lemmas on the library functions -/

theorem drop_length_succ_append {α : Type} (p t : List α) (c : α) :
    (p ++ c :: t).drop (p.length + [c].length) = t := by
  induction p with
  | nil => simp
  | cons a p ih => simp

theorem take_length_append {α : Type} (p t : List α) : (p ++ t).take p.length = p := by
  simp

section Strings

variable {α : Type} [DecidableEq α]

theorem startsWith_nil_singleton (c : α) : startsWith ([] : List α) [c] = false := rfl

theorem startsWith_cons_singleton (a c : α) (t : List α) :
    startsWith (a :: t) [c] = decide (a = c) := by
  cases t <;> simp [startsWith]

theorem Index_nil_singleton (c : α) : Index ([] : List α) [c] = none := by
  simp [Index, startsWith]

theorem Index_cons_self (c : α) (t : List α) : Index (c :: t) [c] = some 0 := by
  simp [Index, startsWith_cons_singleton]

theorem Index_cons_ne {a c : α} (h : a ≠ c) (t : List α) :
    Index (a :: t) [c] = (Index t [c]).map (· + 1) := by
  rw [Index]
  simp [startsWith_cons_singleton, h]

theorem Index_of_not_mem {c : α} : ∀ {s : List α}, c ∉ s → Index s [c] = none
  | [], _ => Index_nil_singleton c
  | a :: t, h => by
    have ha : a ≠ c := fun e => h (by simp [e])
    have ht : c ∉ t := fun e => h (by simp [e])
    rw [Index_cons_ne ha, Index_of_not_mem ht]
    rfl

theorem Index_append_cons {c : α} : ∀ {p : List α} (t : List α), c ∉ p →
    Index (p ++ c :: t) [c] = some p.length
  | [], t, _ => Index_cons_self c t
  | a :: p, t, h => by
    have ha : a ≠ c := fun e => h (by simp [e])
    have hp : c ∉ p := fun e => h (by simp [e])
    rw [List.cons_append, Index_cons_ne ha, Index_append_cons t hp]
    rfl

/-- A list that holds `c` splits at the first `c`. -/
theorem exists_first_occurrence {c : α} : ∀ {s : List α}, c ∈ s →
    ∃ p t, s = p ++ c :: t ∧ c ∉ p
  | a :: s, h => by
    by_cases ha : a = c
    · exact ⟨[], s, by simp [ha], by simp⟩
    · have hs : c ∈ s := by
        rcases List.mem_cons.1 h with e | e
        · exact absurd e.symm ha
        · exact e
      obtain ⟨p, t, e, hp⟩ := exists_first_occurrence hs
      refine ⟨a :: p, t, by simp [e], ?_⟩
      intro hmem
      rcases List.mem_cons.1 hmem with e' | e'
      · exact ha e'.symm
      · exact hp e'

theorem countLoop_singleton (c : α) : ∀ (fuel : Nat) (s : List α), s.length ≤ fuel →
    countLoop [c] fuel s = s.count c
  | 0, s, h => by
    have : s = [] := List.length_eq_zero.1 (Nat.le_zero.1 h)
    subst this
    rfl
  | fuel + 1, s, h => by
    by_cases hc : c ∈ s
    · obtain ⟨p, t, e, hp⟩ := exists_first_occurrence hc
      subst e
      have ht : t.length ≤ fuel := by
        simp only [List.length_append, List.length_cons] at h
        omega
      rw [countLoop, Index_append_cons t hp]
      simp only [drop_length_succ_append]
      rw [countLoop_singleton c fuel t ht]
      simp [List.count_append, List.count_eq_zero_of_not_mem hp, Nat.add_comm]
    · rw [countLoop, Index_of_not_mem hc]
      simp [List.count_eq_zero_of_not_mem hc]

theorem Count_singleton (c : α) (s : List α) : Count s [c] = s.count c :=
  countLoop_singleton c s.length s (Nat.le_refl _)

end Strings

/-- The pieces `p0, p1, ..., pk` with `c` between neighbours: the text
`p0 c p1 c ... c pk`. -/
theorem intercalate_cons_cons {α : Type} (c : α) (p0 p1 : List α) (ps : List (List α)) :
    [c].intercalate (p0 :: p1 :: ps) = p0 ++ c :: [c].intercalate (p1 :: ps) := by
  simp [List.intercalate, List.intersperse]

theorem intercalate_singleton {α : Type} (c : α) (p0 : List α) :
    [c].intercalate [p0] = p0 := by
  simp [List.intercalate, List.intersperse]

section Pieces

variable {α : Type} [DecidableEq α]

theorem count_intercalate (c : α) : ∀ (p0 : List α) (ps : List (List α)),
    (∀ p ∈ p0 :: ps, c ∉ p) → ([c].intercalate (p0 :: ps)).count c = ps.length
  | p0, [], h => by
    rw [intercalate_singleton]
    simpa using List.count_eq_zero_of_not_mem (h p0 (by simp))
  | p0, p1 :: ps, h => by
    rw [intercalate_cons_cons, List.count_append, List.count_cons_self,
      count_intercalate c p1 ps (fun p hp => h p (List.mem_cons_of_mem _ hp)),
      List.count_eq_zero_of_not_mem (h p0 (by simp))]
    simp

theorem splitLoop_intercalate (c : α) : ∀ (ps : List (List α)) (p0 : List α) (n : Nat),
    (∀ p ∈ p0 :: ps, c ∉ p) → ps.length ≤ n →
    splitLoop [c] n ([c].intercalate (p0 :: ps)) = p0 :: ps
  | [], p0, n, h, _ => by
    rw [intercalate_singleton]
    cases n with
    | zero => rfl
    | succ n => rw [splitLoop, Index_of_not_mem (h p0 (by simp))]
  | p1 :: ps, p0, 0, _, hn => by simp at hn
  | p1 :: ps, p0, n + 1, h, hn => by
    have h0 : c ∉ p0 := h p0 (by simp)
    rw [intercalate_cons_cons, splitLoop, Index_append_cons _ h0]
    simp only [drop_length_succ_append, take_length_append]
    rw [splitLoop_intercalate c ps p1 n (fun p hp => h p (List.mem_cons_of_mem _ hp))
      (by simpa using hn)]

theorem Split_intercalate (c : α) (p0 : List α) (ps : List (List α))
    (h : ∀ p ∈ p0 :: ps, c ∉ p) : Split ([c].intercalate (p0 :: ps)) [c] = p0 :: ps := by
  rw [Split, Count_singleton, count_intercalate c p0 ps h]
  exact splitLoop_intercalate c ps p0 ps.length h (Nat.le_refl _)

/-- Every text is, in one way, pieces free of `c` with `c` between them. -/
theorem exists_pieces (c : α) : ∀ s : List α,
    ∃ p0 ps, s = [c].intercalate (p0 :: ps) ∧ ∀ p ∈ p0 :: ps, c ∉ p
  | [] => ⟨[], [], by simp [intercalate_singleton], by simp⟩
  | a :: s => by
    obtain ⟨p0, ps, e, h⟩ := exists_pieces c s
    by_cases ha : a = c
    · refine ⟨[], p0 :: ps, ?_, ?_⟩
      · rw [intercalate_cons_cons, ← e, ha]; rfl
      · intro p hp
        rcases List.mem_cons.1 hp with e' | e'
        · simp [e']
        · exact h p e'
    · refine ⟨a :: p0, ps, ?_, ?_⟩
      · cases ps with
        | nil => rw [intercalate_singleton] at e ⊢; rw [e]
        | cons p1 ps => rw [intercalate_cons_cons] at e ⊢; rw [e]; rfl
      · intro p hp
        rcases List.mem_cons.1 hp with e' | e'
        · subst e'
          intro hmem
          rcases List.mem_cons.1 hmem with e'' | e''
          · exact ha e''.symm
          · exact h p0 (by simp) e''
        · exact h p (List.mem_cons_of_mem _ e')

theorem replaceEach_of_not_mem {c : α} (new : List α) : ∀ {s : List α}, c ∉ s →
    replaceEach c new s = s
  | [], _ => rfl
  | a :: s, h => by
    have ha : a ≠ c := fun e => h (by simp [e])
    have hs : c ∉ s := fun e => h (by simp [e])
    have ih := replaceEach_of_not_mem new hs
    simp only [replaceEach] at ih ⊢
    simp [List.flatMap_cons, ha, ih]

theorem replaceEach_append (c : α) (new s t : List α) :
    replaceEach c new (s ++ t) = replaceEach c new s ++ replaceEach c new t := by
  simp [replaceEach, List.flatMap_append]

theorem replaceEach_cons_self (c : α) (new s : List α) :
    replaceEach c new (c :: s) = new ++ replaceEach c new s := by
  simp [replaceEach, List.flatMap_cons]

theorem replaceLoop_singleton (c : α) (new : List α) : ∀ (n : Nat) (s : List α),
    s.count c ≤ n → replaceLoop [c] new n s = replaceEach c new s
  | 0, s, h => by
    have hc : c ∉ s := List.count_eq_zero.1 (Nat.le_zero.1 h)
    rw [replaceLoop, replaceEach_of_not_mem new hc]
  | n + 1, s, h => by
    by_cases hc : c ∈ s
    · obtain ⟨p, t, e, hp⟩ := exists_first_occurrence hc
      subst e
      have ht : t.count c ≤ n := by
        simp [List.count_append, List.count_eq_zero_of_not_mem hp] at h
        omega
      rw [replaceLoop, Index_append_cons t hp]
      simp only [drop_length_succ_append, take_length_append]
      rw [replaceLoop_singleton c new n t ht, replaceEach_append, replaceEach_cons_self,
        replaceEach_of_not_mem new hp, List.append_assoc]
    · rw [replaceLoop, Index_of_not_mem hc, replaceEach_of_not_mem new hc]

theorem Replace_singleton_all (c : α) (new s : List α) (h : [c] ≠ new) :
    Replace s [c] new (-1) = replaceEach c new s := by
  unfold Replace
  rw [Count_singleton]
  by_cases hc : s.count c = 0
  · simp [h, hc, replaceEach_of_not_mem new (List.count_eq_zero.1 hc)]
  · simp [h, hc]
    exact replaceLoop_singleton c new _ s (Nat.le_refl _)

end Pieces

/-! ## Decimal texts -/

theorem mem_formatUintLoop : ∀ (fuel n : Nat) (acc : GoString) (b : Byte),
    b ∈ formatUintLoop fuel n acc → b ∈ acc ∨ ∃ d, d < 10 ∧ b = digitByte d
  | 0, _, _, _, h => Or.inl h
  | fuel + 1, n, acc, b, h => by
    rw [formatUintLoop] at h
    split at h
    · rename_i hn
      rcases List.mem_cons.1 h with e | e
      · exact Or.inr ⟨n, hn, e⟩
      · exact Or.inl e
    · rcases mem_formatUintLoop fuel (n / 10) _ b h with e | e
      · rcases List.mem_cons.1 e with e' | e'
        · exact Or.inr ⟨n % 10, Nat.mod_lt _ (by decide), e'⟩
        · exact Or.inl e'
      · exact Or.inr e

/-- A decimal text holds digits only. -/
theorem mem_formatUint {n : Nat} {b : Byte} (h : b ∈ formatUint n) :
    ∃ d, d < 10 ∧ b = digitByte d := by
  rcases mem_formatUintLoop (n + 1) n [] b h with e | e
  · simp at e
  · exact e

theorem digitByte_ne_qmark {d : Nat} (h : d < 10) : digitByte d ≠ qmark := by
  interval_cases d <;> decide

theorem digitByte_ne_squote {d : Nat} (h : d < 10) : digitByte d ≠ squote := by
  interval_cases d <;> decide

theorem qmark_not_mem_formatUint (n : Nat) : qmark ∉ formatUint n := by
  intro h
  obtain ⟨d, hd, e⟩ := mem_formatUint h
  exact digitByte_ne_qmark hd e.symm

theorem squote_not_mem_formatUint (n : Nat) : squote ∉ formatUint n := by
  intro h
  obtain ⟨d, hd, e⟩ := mem_formatUint h
  exact digitByte_ne_squote hd e.symm


theorem formatUintLoop_eq_digits : ∀ (fuel n : Nat) (acc : GoString), n < fuel → 0 < n →
    formatUintLoop fuel n acc = ((Nat.digits 10 n).reverse.map digitByte) ++ acc
  | 0, _, _, h, _ => absurd h (Nat.not_lt_zero _)
  | fuel + 1, n, acc, h, hn => by
    rw [formatUintLoop]
    by_cases h10 : n < 10
    · rw [if_pos h10, Nat.digits_of_lt 10 n (Nat.pos_iff_ne_zero.1 hn) h10]
      rfl
    · rw [if_neg h10, Nat.digits_def' (by decide) hn]
      have hlt : n / 10 < fuel := by omega
      have hpos : 0 < n / 10 := by omega
      rw [formatUintLoop_eq_digits fuel (n / 10) _ hlt hpos]
      simp

/-- The text of a positive number is its decimal digits, most significant
first; the text of zero is the digit 0. -/
theorem formatUint_eq_digits (n : Nat) :
    formatUint n = if n = 0 then [digitByte 0] else (Nat.digits 10 n).reverse.map digitByte := by
  by_cases h : n = 0
  · subst h
    rfl
  · rw [if_neg h, formatUint, formatUintLoop_eq_digits (n + 1) n [] (Nat.lt_succ_self n)
      (Nat.pos_of_ne_zero h)]
    simp

/-! ## The statement quoter -/

theorem quote_eq_replaceEach (s : GoString) :
    quote s = replaceEach squote [squote, squote] s :=
  Replace_singleton_all squote [squote, squote] s (by decide)

theorem mem_replaceEach {α : Type} [DecidableEq α] {c x : α} {new s : List α}
    (h : x ∈ replaceEach c new s) : x ∈ s ∨ x ∈ new := by
  simp only [replaceEach, List.mem_flatMap] at h
  obtain ⟨a, ha, hx⟩ := h
  split at hx
  · exact Or.inr hx
  · simp at hx
    exact Or.inl (hx ▸ ha)

theorem qmark_not_mem_quote {s : GoString} (h : qmark ∉ s) : qmark ∉ quote s := by
  rw [quote_eq_replaceEach]
  intro hm
  rcases mem_replaceEach hm with e | e
  · exact h e
  · revert e; decide

/-! ## The placeholder rewriter -/

theorem query2StatementLoop_eq : ∀ (ps : List GoString) (i : Nat) (st : GoString), 0 < i →
    query2StatementLoop i ps st = st ++ numberedPieces i ps
  | [], _, st, _ => by simp [query2StatementLoop, numberedPieces]
  | p :: ps, i, st, hi => by
    rw [query2StatementLoop, query2StatementLoop_eq ps (i + 1) _ (Nat.succ_pos i)]
    simp [hi, numberedPieces, List.append_assoc]

theorem qmark_not_mem_numberedPieces : ∀ (ps : List GoString) (i : Nat),
    (∀ p ∈ ps, qmark ∉ p) → qmark ∉ numberedPieces i ps
  | [], _, _ => by simp [numberedPieces]
  | p :: ps, i, h => by
    have ih := qmark_not_mem_numberedPieces ps (i + 1) (fun q hq => h q (List.mem_cons_of_mem _ hq))
    have hp := h p (by simp)
    have hd := qmark_not_mem_formatUint i
    have hl : qmark ∉ lit "@p" := by decide
    simp only [numberedPieces, List.mem_append, not_or]
    exact ⟨⟨⟨hl, hd⟩, hp⟩, ih⟩

theorem query2Statement_intercalate (p0 : GoString) (ps : List GoString)
    (h : ∀ p ∈ p0 :: ps, qmark ∉ p) :
    query2Statement ([qmark].intercalate (p0 :: ps)) =
      some (quote (p0 ++ numberedPieces 1 ps), ps.length) := by
  have hs : Split ([qmark].intercalate (p0 :: ps)) (lit "?") = p0 :: ps :=
    Split_intercalate qmark p0 ps h
  simp only [query2Statement, hs]
  simp [query2StatementLoop, query2StatementLoop_eq ps 1 p0 Nat.one_pos]

/-- C1: for every query `q` with exactly `k` occurrences of `?`: `q` is pieces
`p0 .. pk` free of `?` with `?` between them, and for these pieces
`query2Statement q` returns the count `k` and the statement
`quote (p0 ++ "@p1" ++ p1 ++ ... ++ "@pk" ++ pk)`, the i-th `?` from the left
being replaced by `@p` and the decimal text of `i`; the returned statement
holds no `?`. -/
theorem query2Statement_spec (q : GoString) (k : Nat) (hk : q.count qmark = k) :
    (∃ (p0 : GoString) (ps : List GoString),
      q = [qmark].intercalate (p0 :: ps) ∧ ∀ p ∈ p0 :: ps, qmark ∉ p) ∧
    ∀ (p0 : GoString) (ps : List GoString),
      q = [qmark].intercalate (p0 :: ps) → (∀ p ∈ p0 :: ps, qmark ∉ p) →
      ps.length = k ∧
      query2Statement q = some (quote (p0 ++ numberedPieces 1 ps), k) ∧
      qmark ∉ quote (p0 ++ numberedPieces 1 ps) := by
  refine ⟨exists_pieces qmark q, ?_⟩
  intro p0 ps e h
  have hlen : ps.length = k := by rw [← hk, e, count_intercalate qmark p0 ps h]
  refine ⟨hlen, ?_, ?_⟩
  · rw [← hlen]
    conv_lhs => rw [e]
    exact query2Statement_intercalate p0 ps h
  · apply qmark_not_mem_quote
    simp only [List.mem_append, not_or]
    exact ⟨h p0 (by simp), qmark_not_mem_numberedPieces ps 1
      (fun p hp => h p (List.mem_cons_of_mem _ hp))⟩

/-- C1 at the query `a?b'c?`: two placeholders, statement `a@p1b''c@p2`. -/
theorem query2Statement_spec_witness :
    (lit "a?b'c?").count qmark = 2 ∧
    query2Statement (lit "a?b'c?") =
      some (quote (lit "a" ++ numberedPieces 1 [lit "b'c", lit ""]), 2) :=
  ⟨by decide,
    ((query2Statement_spec (lit "a?b'c?") 2 (by decide)).2 (lit "a") [lit "b'c", lit ""]
      (by decide) (by decide)).2.1⟩

theorem query2Statement_count (q : GoString) :
    ∃ S, query2Statement q = some (S, q.count qmark) := by
  obtain ⟨p0, ps, e, h⟩ := exists_pieces qmark q
  refine ⟨quote (p0 ++ numberedPieces 1 ps), ?_⟩
  have hk : ps.length = q.count qmark := by rw [e, count_intercalate qmark p0 ps h]
  rw [← hk]
  conv_lhs => rw [e]
  exact query2Statement_intercalate p0 ps h

theorem query2Statement_no_placeholder {q : GoString} (h : qmark ∉ q) :
    query2Statement q = some (quote q, 0) := by
  have := query2Statement_intercalate q [] (by simpa using h)
  simpa [intercalate_singleton, numberedPieces] using this

/-! ## The execution facade -/

/-- C2: when the number of `?` in the query differs from the number of
arguments, `ExecuteSql` returns an error and leaves the connection as it
was, so nothing was handed to `conn.Exec`, on the Modern and on the Legacy
(`sybaseMode125`) dialect; the error text gives the placeholder count as
expected and the number of arguments as got. -/
theorem ExecuteSql_count_mismatch {R : Type} (F : Fmt)
    (srv : List GoString → GoString → Except GoError R)
    (sybase : Bool) (sent : List GoString) (q : GoString) (args : List GoValue)
    (h : q.count qmark ≠ args.length) :
    ExecuteSql F srv ⟨sybase, sent⟩ q args =
      some (⟨sybase, sent⟩,
        .error (lit "Incorrect number of params, expecting " ++ formatUint (q.count qmark) ++
          lit " got " ++ formatUint args.length)) := by
  obtain ⟨S, hS⟩ := query2Statement_count q
  cases sybase <;>
    simp [ExecuteSql, executeSqlSybase125, Conn.sybaseMode125, hS, h, paramCountError]

/-- C2 at the query `select ?` without arguments, on the Legacy dialect. -/
theorem ExecuteSql_count_mismatch_witness :
    (lit "select ?").count qmark ≠ ([] : List GoValue).length ∧
    ExecuteSql ⟨fun _ => [], fun _ => [], fun _ => [], fun _ => []⟩
        (fun _ _ => Except.ok ()) ⟨true, []⟩ (lit "select ?") [] =
      some (⟨true, []⟩,
        .error (lit "Incorrect number of params, expecting " ++
          formatUint ((lit "select ?").count qmark) ++
          lit " got " ++ formatUint ([] : List GoValue).length)) :=
  ⟨by decide, ExecuteSql_count_mismatch _ _ true [] (lit "select ?") [] (by decide)⟩

/-! ## Occurrences of a text -/

theorem startsWith_iff {α : Type} [DecidableEq α] : ∀ (s p : List α),
    startsWith s p = true ↔ ∃ t, s = p ++ t
  | s, [] => by cases s <;> simp [startsWith]
  | [], b :: p => by simp [startsWith]
  | a :: s, b :: p => by
    simp only [startsWith, Bool.and_eq_true, decide_eq_true_eq, startsWith_iff s p,
      List.cons_append, List.cons.injEq]
    constructor
    · rintro ⟨e, t, ht⟩
      exact ⟨t, e, ht⟩
    · rintro ⟨t, e, ht⟩
      exact ⟨e, t, ht⟩

/-- `Index` finds nothing exactly when the text does not occur. -/
theorem Index_eq_none_iff {α : Type} [DecidableEq α] (sep : List α) : ∀ (s : List α),
    Index s sep = none ↔ ¬ ∃ p t, s = p ++ sep ++ t
  | [] => by
    rw [Index]
    by_cases h : startsWith ([] : List α) sep = true
    · simp only [h, if_true]
      obtain ⟨t, ht⟩ := (startsWith_iff [] sep).1 h
      simp only [reduceCtorEq, false_iff, not_not]
      exact ⟨[], t, by simpa using ht⟩
    · simp only [h]
      simp only [Bool.false_eq_true, if_false, true_iff]
      rintro ⟨p, t, e⟩
      apply h
      rw [startsWith_iff]
      have e' := e.symm
      simp only [List.append_eq_nil, List.append_assoc] at e'
      exact ⟨[], by simp [e'.2.1]⟩
  | a :: s => by
    rw [Index]
    by_cases h : startsWith (a :: s) sep = true
    · simp only [h, if_true]
      obtain ⟨t, ht⟩ := (startsWith_iff (a :: s) sep).1 h
      simp only [reduceCtorEq, false_iff, not_not]
      exact ⟨[], t, by simpa using ht⟩
    · simp only [h]
      simp only [Bool.false_eq_true, if_false, Option.map_eq_none']
      rw [Index_eq_none_iff sep s]
      constructor
      · rintro hn ⟨p, t, e⟩
        cases p with
        | nil =>
          apply h
          rw [startsWith_iff]
          exact ⟨t, by simpa using e⟩
        | cons b p =>
          simp only [List.cons_append, List.cons.injEq] at e
          exact hn ⟨p, t, e.2⟩
      · rintro hn ⟨p, t, e⟩
        exact hn ⟨a :: p, t, by simp [e]⟩

theorem findAllLoop_of_absent {α : Type} [DecidableEq α] {pat s : List α}
    (h : Index s pat = none) (fuel off : Nat) : findAllLoop pat fuel off s = [] := by
  cases fuel with
  | zero => rfl
  | succ n => rw [findAllLoop, h]

theorem FindAllSubmatchIndex_of_absent {α : Type} [DecidableEq α] {pat s : List α}
    (h : Index s pat = none) : FindAllSubmatchIndex pat s = [] :=
  findAllLoop_of_absent h _ _

theorem Replace_of_not_mem {α : Type} [DecidableEq α] {c : α} {s : List α} (h : c ∉ s)
    (new : List α) (n : Int) : Replace s [c] new n = s := by
  unfold Replace
  rw [Count_singleton, List.count_eq_zero_of_not_mem h]
  simp

theorem quote_of_not_mem {s : GoString} (h : squote ∉ s) : quote s = s :=
  Replace_of_not_mem h _ _

/-! ## The Legacy dialect without parameters -/

/-- On the Legacy dialect a query without `?` and without the marker text
`$bindkey`, given no arguments, is sent as `quote q` followed by
`statusRowSybase125`. -/
theorem executeSqlSybase125_no_params_quoted {R : Type} (F : Fmt)
    (srv : List GoString → GoString → Except GoError R) (conn : Conn) (q : GoString)
    (hq : qmark ∉ q) (hb : ¬ ∃ p t, q = p ++ lit "$bindkey" ++ t) :
    executeSqlSybase125 F srv conn q [] =
      some (conn.Exec srv (quote q ++ statusRowSybase125)) := by
  have h1 := query2Statement_no_placeholder hq
  have h2 : Replace q (lit "?") (lit "$bindkey") (-1) = q := Replace_of_not_mem hq _ _
  have h3 : FindAllSubmatchIndex (lit "$bindkey") q = [] :=
    FindAllSubmatchIndex_of_absent ((Index_eq_none_iff _ q).2 hb)
  simp [executeSqlSybase125, h1, h2, h3, executeSqlSybase125Loop]

/-! ## Arguments without an encoding -/

theorem parseParamsLoop_error (F : Fmt) : ∀ (args : List GoValue) (i : Nat) (d v : GoString),
    (∃ a ∈ args, (go2SqlDataType F a).2.2 ≠ none) →
    ∃ err, parseParamsLoop F i args d v = (lit "", lit "", some err)
  | [], _, _, _, h => by simp at h
  | a :: rest, i, d, v, h => by
    rcases hr : go2SqlDataType F a with ⟨t, l, _ | err⟩
    · have hrest : ∃ b ∈ rest, (go2SqlDataType F b).2.2 ≠ none := by
        obtain ⟨b, hb, hne⟩ := h
        rcases List.mem_cons.1 hb with e | e
        · subst e
          rw [hr] at hne
          exact absurd rfl hne
        · exact ⟨b, e, hne⟩
      simp only [parseParamsLoop, hr]
      exact parseParamsLoop_error F rest (i + 1) _ _ hrest
    · exact ⟨err, by simp only [parseParamsLoop, hr]⟩

theorem parseParams_error (F : Fmt) (args : List GoValue)
    (h : ∃ a ∈ args, (go2SqlDataType F a).2.2 ≠ none) :
    ∃ err, parseParams F args = (lit "", lit "", some err) :=
  parseParamsLoop_error F args 0 _ _ h

/-- On the Modern dialect an argument without an encoding makes `ExecuteSql`
return an error with the connection as it was. -/
theorem ExecuteSql_modern_unencodable {R : Type} (F : Fmt)
    (srv : List GoString → GoString → Except GoError R)
    (sent : List GoString) (q : GoString) (args : List GoValue)
    (hc : q.count qmark = args.length)
    (h : ∃ a ∈ args, (go2SqlDataType F a).2.2 ≠ none) :
    ∃ err, ExecuteSql F srv ⟨false, sent⟩ q args = some (⟨false, sent⟩, .error err) := by
  obtain ⟨S, hS⟩ := query2Statement_count q
  obtain ⟨err, he⟩ := parseParams_error F args h
  exact ⟨err, by simp [ExecuteSql, Conn.sybaseMode125, hS, hc, he]⟩

/-- C3, on the code: on the Legacy dialect the query `select ?` with one
argument of type `[]string`, for which `go2SqlDataType` returns the error
`unknown dataType []string`, is not refused: the command `select ` with the
placeholder replaced by the empty text is handed to `conn.Exec`. -/
theorem ExecuteSql_legacy_unencodable_sent {R : Type} (F : Fmt)
    (srv : List GoString → GoString → Except GoError R) (sent : List GoString) :
    (lit "select ?").count qmark = [GoValue.other (lit "[]string") (lit "[a]")].length ∧
    go2SqlDataType F (.other (lit "[]string") (lit "[a]")) =
      (lit "", lit "", some (lit "unknown dataType []string")) ∧
    ExecuteSql F srv ⟨true, sent⟩ (lit "select ?") [.other (lit "[]string") (lit "[a]")] =
      some (Conn.Exec srv ⟨true, sent⟩ (lit "select ")) :=
  ⟨by decide, rfl, rfl⟩

/-! ## The Legacy dialect -/

/-- C4 as stated fails: on the Legacy dialect the query `select 1` without
arguments is not sent as it is, the status fragment follows it; the query
`select 'a'` is sent with its quotes doubled; the query `select '$bindkey'`
ends in a run-time panic and nothing is sent. -/
theorem executeSqlSybase125_no_params_not_verbatim :
    sentAfter (executeSqlSybase125 Fmt.blank okServer ⟨true, []⟩ (lit "select 1") []) =
      some [lit "select 1" ++ statusRowSybase125] ∧
    sentAfter (executeSqlSybase125 Fmt.blank okServer ⟨true, []⟩ (lit "select 1") []) ≠
      some [lit "select 1"] ∧
    sentAfter (executeSqlSybase125 Fmt.blank okServer ⟨true, []⟩ (lit "select 'a'") []) =
      some [lit "select ''a''" ++ statusRowSybase125] ∧
    sentAfter (executeSqlSybase125 Fmt.blank okServer ⟨true, []⟩ (lit "select '$bindkey'") []) =
      none := by
  decide

/-- C4, amended: on the Legacy dialect, for every query `q` that holds no `?`,
no single quote and not the marker text `$bindkey`, with an empty argument
list, the command handed to `conn.Exec` is `q`, unchanged, followed by the
`statusRowSybase125` fragment. -/
theorem executeSqlSybase125_no_params {R : Type} (F : Fmt)
    (srv : List GoString → GoString → Except GoError R) (conn : Conn) (q : GoString)
    (hq : qmark ∉ q) (hs : squote ∉ q) (hb : ¬ ∃ p t, q = p ++ lit "$bindkey" ++ t) :
    executeSqlSybase125 F srv conn q [] =
      some (conn.Exec srv (q ++ statusRowSybase125)) := by
  have h := executeSqlSybase125_no_params_quoted F srv conn q hq hb
  rwa [quote_of_not_mem hs] at h

/-- C4, amended, at the query `select 1`. -/
theorem executeSqlSybase125_no_params_witness :
    executeSqlSybase125 Fmt.blank okServer ⟨true, []⟩ (lit "select 1") [] =
      some (Conn.Exec okServer ⟨true, []⟩ (lit "select 1" ++ statusRowSybase125)) :=
  executeSqlSybase125_no_params Fmt.blank okServer ⟨true, []⟩ (lit "select 1")
    (by decide) (by decide) ((Index_eq_none_iff _ _).1 (by decide))

/-- C5, on the code: on the Legacy dialect the query `select ?, ?` with the
encodable arguments `"$bindkey"` (literal `'$bindkey'`) and `3` (literal `3`)
is not sent as `select '$bindkey', 3`: the second substitution lands inside
the first literal and the command is `select '3', $bindkey`. -/
theorem executeSqlSybase125_marker_in_literal {R : Type} (F : Fmt)
    (srv : List GoString → GoString → Except GoError R) (sent : List GoString) :
    go2SqlDataType F (.string (lit "$bindkey")) = (lit "nvarchar (8)", lit "'$bindkey'", none) ∧
    go2SqlDataType F (.int 3) = (lit "int", lit "3", none) ∧
    executeSqlSybase125 F srv ⟨true, sent⟩ (lit "select ?, ?")
        [.string (lit "$bindkey"), .int 3] =
      some (Conn.Exec srv ⟨true, sent⟩ (lit "select '3', $bindkey")) ∧
    lit "select '3', $bindkey" ≠
      lit "select " ++ lit "'$bindkey'" ++ lit ", " ++ lit "3" ++ lit "" :=
  ⟨rfl, rfl, rfl, by decide⟩


/-! ## The Legacy substitution away from the marker text -/

theorem startsWith_cons_of_ne {α : Type} [DecidableEq α] {a c : α} (h : a ≠ c)
    (s r : List α) : startsWith (a :: s) (c :: r) = false := by
  simp [startsWith, h]

theorem Index_append_pattern {α : Type} [DecidableEq α] {c : α} (r t : List α) :
    ∀ {p : List α}, c ∉ p → Index (p ++ (c :: r) ++ t) (c :: r) = some p.length
  | [], _ => by
    have h : startsWith ([] ++ (c :: r) ++ t) (c :: r) = true :=
      (startsWith_iff _ _).2 ⟨t, by simp⟩
    rw [Index.eq_def, if_pos h]
    rfl
  | a :: p, h => by
    have ha : a ≠ c := fun e => h (by simp [e])
    have hp : c ∉ p := fun e => h (by simp [e])
    have ih := Index_append_pattern r t hp
    rw [List.cons_append, List.cons_append, Index, startsWith_cons_of_ne ha]
    simp only [Bool.false_eq_true, if_false]
    rw [ih]
    rfl

theorem drop_length_pattern {α : Type} (p r t : List α) :
    (p ++ r ++ t).drop (p.length + r.length) = t := by
  rw [← List.length_append, List.drop_left]

theorem take_length_pattern {α : Type} (p r t : List α) :
    (p ++ r ++ t).take p.length = p := by
  rw [List.append_assoc, List.take_left]

/-- Replacing once: the first occurrence goes, and it is the one behind a
text free of the first byte of the pattern. -/
theorem Replace_once {α : Type} [DecidableEq α] {c : α} (r t new : List α) {p : List α}
    (h : c ∉ p) : Replace (p ++ (c :: r) ++ t) (c :: r) new 1 = p ++ new ++ t := by
  have hi := Index_append_pattern r t h
  unfold Replace
  by_cases heq : c :: r = new
  · simp [heq]
  · have hcount : Count (p ++ (c :: r) ++ t) (c :: r) ≠ 0 := by
      unfold Count
      have hlen : (p ++ (c :: r) ++ t).length = (p.length + r.length + t.length) + 1 := by
        simp only [List.length_append, List.length_cons]
        omega
      rw [hlen]
      simp only [countLoop, hi]
      omega
    have hn : (if (1 : Int) < 0 ∨ ((Count (p ++ (c :: r) ++ t) (c :: r) : Nat) : Int) < 1
        then Count (p ++ (c :: r) ++ t) (c :: r) else (1 : Int).toNat) = 1 := by
      have : ¬ ((1 : Int) < 0 ∨ ((Count (p ++ (c :: r) ++ t) (c :: r) : Nat) : Int) < 1) := by
        omega
      rw [if_neg this]
      rfl
    simp only [heq, hcount, hn, if_false, false_or, one_ne_zero]
    rw [replaceLoop, hi]
    simp only [drop_length_pattern, take_length_pattern, replaceLoop]

theorem findAllLoop_length {α : Type} [DecidableEq α] {c : α} (r : List α) :
    ∀ (ps : List (List α)) (pre : List α) (fuel off : Nat),
      c ∉ pre → (∀ p ∈ ps, c ∉ p) → ps.length ≤ fuel →
      (findAllLoop (c :: r) fuel off (pre ++ ps.flatMap (fun p => (c :: r) ++ p))).length =
        ps.length
  | [], pre, fuel, off, hpre, _, _ => by
    have hnone : Index (pre ++ ([] : List (List α)).flatMap (fun p => (c :: r) ++ p)) (c :: r)
        = none := by
      rw [Index_eq_none_iff]
      rintro ⟨p, t, e⟩
      apply hpre
      have : c ∈ p ++ (c :: r) ++ t := by simp
      rw [← e] at this
      simpa using this
    rw [findAllLoop_of_absent hnone]
    rfl
  | p1 :: ps, pre, 0, off, _, _, hf => by simp at hf
  | p1 :: ps, pre, fuel + 1, off, hpre, hps, hf => by
    have hshape : pre ++ (p1 :: ps).flatMap (fun p => (c :: r) ++ p) =
        pre ++ (c :: r) ++ (p1 ++ ps.flatMap (fun p => (c :: r) ++ p)) := by
      simp [List.flatMap_cons, List.append_assoc]
    rw [hshape, findAllLoop, Index_append_pattern r _ hpre]
    simp only [drop_length_pattern]
    simp only [List.length_cons]
    rw [findAllLoop_length r ps p1 fuel _ (hps p1 (by simp))
      (fun p hp => hps p (List.mem_cons_of_mem _ hp)) (by simpa using hf)]

theorem replaceEach_intercalate {α : Type} [DecidableEq α] (c : α) (new : List α) :
    ∀ (ps : List (List α)) (p0 : List α), (∀ p ∈ p0 :: ps, c ∉ p) →
      replaceEach c new ([c].intercalate (p0 :: ps)) =
        p0 ++ ps.flatMap (fun p => new ++ p)
  | [], p0, h => by
    rw [intercalate_singleton, replaceEach_of_not_mem new (h p0 (by simp))]
    simp
  | p1 :: ps, p0, h => by
    rw [intercalate_cons_cons, replaceEach_append, replaceEach_cons_self,
      replaceEach_of_not_mem new (h p0 (by simp)),
      replaceEach_intercalate c new ps p1 (fun p hp => h p (List.mem_cons_of_mem _ hp))]
    simp [List.flatMap_cons, List.append_assoc]

theorem executeSqlSybase125Loop_eq (F : Fmt) :
    ∀ (ps : List GoString) (args done : List GoValue) (found : List (Nat × Nat))
      (pre : GoString),
      found.length = ps.length → args.length = ps.length → dollar ∉ pre →
      (∀ p ∈ ps, dollar ∉ p) → (∀ a ∈ args, dollar ∉ (go2SqlDataType F a).2.1) →
      executeSqlSybase125Loop F (done ++ args) done.length found
          (pre ++ ps.flatMap (fun p => lit "$bindkey" ++ p)) =
        some (pre ++ substituted F args ps)
  | [], args, done, found, pre, hf, ha, _, _, _ => by
    have hfound : found = [] := List.length_eq_zero.1 hf
    have hargs : args = [] := List.length_eq_zero.1 ha
    subst hfound hargs
    simp [executeSqlSybase125Loop, substituted]
  | p :: ps, [], _, _, _, _, ha, _, _, _ => by simp at ha
  | p :: ps, a :: args, _, [], _, hf, _, _, _, _ => by simp at hf
  | p :: ps, a :: args, done, m :: found, pre, hf, ha, hpre, hps, hargs => by
    have hget : (done ++ a :: args)[done.length]? = some a := by
      rw [List.getElem?_append_right (Nat.le_refl _)]
      simp
    have hshape : pre ++ (p :: ps).flatMap (fun p => lit "$bindkey" ++ p) =
        pre ++ (dollar :: lit "bindkey") ++
          (p ++ ps.flatMap (fun p => lit "$bindkey" ++ p)) := by
      simp only [List.flatMap_cons, List.append_assoc]
      rfl
    have hmark : lit "$bindkey" = dollar :: lit "bindkey" := rfl
    rw [executeSqlSybase125Loop, hget]
    simp only
    rw [hshape, hmark, Replace_once _ _ _ hpre]
    have hpre' : dollar ∉ pre ++ (go2SqlDataType F a).2.1 ++ p := by
      simp only [List.mem_append, not_or]
      exact ⟨⟨hpre, hargs a (by simp)⟩, hps p (by simp)⟩
    have ih := executeSqlSybase125Loop_eq F ps args (done ++ [a]) found
      (pre ++ (go2SqlDataType F a).2.1 ++ p) (by simpa using hf) (by simpa using ha) hpre'
      (fun q hq => hps q (List.mem_cons_of_mem _ hq))
      (fun b hb => hargs b (List.mem_cons_of_mem _ hb))
    simp only [List.append_assoc, List.singleton_append, List.length_append,
      List.length_singleton] at ih
    rw [← hmark]
    simp only [List.append_assoc, substituted]
    exact ih

/-- On the Legacy dialect, when neither the pieces of the query nor the
literals of the arguments hold a dollar sign (so the marker text `$bindkey`
occurs only where a `?` was), every placeholder is replaced by the literal of
its own argument: the command is p0 l1 p1 ... lk pk. -/
theorem executeSqlSybase125_substituted {R : Type} (F : Fmt)
    (srv : List GoString → GoString → Except GoError R) (conn : Conn)
    (p0 : GoString) (ps : List GoString) (args : List GoValue)
    (hk : 1 ≤ ps.length) (hlen : args.length = ps.length)
    (hq : ∀ p ∈ p0 :: ps, qmark ∉ p) (hd : ∀ p ∈ p0 :: ps, dollar ∉ p)
    (hl : ∀ a ∈ args, dollar ∉ (go2SqlDataType F a).2.1) :
    executeSqlSybase125 F srv conn ([qmark].intercalate (p0 :: ps)) args =
      some (conn.Exec srv (p0 ++ substituted F args ps)) := by
  have h1 := query2Statement_intercalate p0 ps hq
  have h2 : Replace ([qmark].intercalate (p0 :: ps)) (lit "?") (lit "$bindkey") (-1) =
      p0 ++ ps.flatMap (fun p => lit "$bindkey" ++ p) := by
    have : lit "?" = [qmark] := rfl
    rw [this, Replace_singleton_all qmark _ _ (by decide), replaceEach_intercalate _ _ _ _ hq]
  have hps : ∀ p ∈ ps, dollar ∉ p := fun p hp => hd p (List.mem_cons_of_mem _ hp)
  have h3 : (FindAllSubmatchIndex (lit "$bindkey")
      (p0 ++ ps.flatMap (fun p => lit "$bindkey" ++ p))).length = ps.length := by
    have hmark : lit "$bindkey" = dollar :: lit "bindkey" := rfl
    rw [hmark]
    apply findAllLoop_length (lit "bindkey") ps p0 _ 0 (hd p0 (by simp)) hps
    simp only [List.length_append]
    have : ps.length ≤ (ps.flatMap (fun p => (dollar :: lit "bindkey") ++ p)).length := by
      clear h1 h2 hk hlen hq hd hps
      induction ps with
      | nil => simp
      | cons p ps ih =>
        simp only [List.flatMap_cons, List.length_append, List.length_cons]
        omega
    omega
  have h4 := executeSqlSybase125Loop_eq F ps args [] _ p0 h3 hlen (hd p0 (by simp)) hps hl
  simp only [List.nil_append, List.length_nil] at h4
  have hne : ps.length ≠ 0 := by omega
  simp [executeSqlSybase125, h1, h2, hlen, h4, hne]

/-! ## The Modern dialect -/

/-- C6: for the query `select * from authors where au_fname = ? and age > ?`
with the arguments `"John"` and the `int` 30, `query2Statement` returns the
template `select * from authors where au_fname = @p1 and age > @p2` with
count 2, and `parseParams` returns the declarations `@p1 nvarchar (4), @p2 int`
and the assignments `@p1='John', @p2=30` with no error. -/
theorem modern_scenario (F : Fmt) :
    query2Statement (lit "select * from authors where au_fname = ? and age > ?") =
      some (lit "select * from authors where au_fname = @p1 and age > @p2", 2) ∧
    parseParams F [.string (lit "John"), .int 30] =
      (lit "@p1 nvarchar (4), @p2 int", lit "@p1='John', @p2=30", none) :=
  ⟨by decide, rfl⟩

theorem intercalate_cons_flatMap {α : Type} (sep x : List α) : ∀ (xs : List (List α)),
    sep.intercalate (x :: xs) = x ++ xs.flatMap (fun y => sep ++ y)
  | [] => by simp [List.intercalate, List.intersperse]
  | y :: ys => by
    have ih := intercalate_cons_flatMap sep y ys
    simp only [List.intercalate, List.intersperse, List.flatten_cons, List.flatMap_cons] at ih ⊢
    rw [ih, List.append_assoc]

theorem parseParamsLoop_ok (F : Fmt) : ∀ (args : List GoValue) (i : Nat) (d v : GoString),
    (∀ a ∈ args, (go2SqlDataType F a).2.2 = none) →
    parseParamsLoop F (i + 1) args d v =
      (d ++ (paramDecls F (i + 2) args).flatMap (fun y => lit ", " ++ y),
        v ++ (paramAssigns F (i + 2) args).flatMap (fun y => lit ", " ++ y), none)
  | [], _, _, _, _ => by simp [parseParamsLoop, paramDecls, paramAssigns]
  | a :: rest, i, d, v, h => by
    have ha := h a (by simp)
    rcases hr : go2SqlDataType F a with ⟨t, l, e⟩
    rw [hr] at ha
    simp only at ha
    subst ha
    simp only [parseParamsLoop, hr, paramDecls, paramAssigns, List.flatMap_cons]
    rw [parseParamsLoop_ok F rest (i + 1) _ _ (fun b hb => h b (List.mem_cons_of_mem _ hb))]
    simp [List.append_assoc]

/-- With every argument encodable, `parseParams` returns the entries
`@pN <sqlType>` and the entries `@pN=<literal>`, numbered from 1 in argument
order, each list joined by a comma and a blank. -/
theorem parseParams_ok (F : Fmt) (args : List GoValue)
    (h : ∀ a ∈ args, (go2SqlDataType F a).2.2 = none) :
    parseParams F args =
      ((lit ", ").intercalate (paramDecls F 1 args),
        (lit ", ").intercalate (paramAssigns F 1 args), none) := by
  cases args with
  | nil => rfl
  | cons a rest =>
    have ha := h a (by simp)
    rcases hr : go2SqlDataType F a with ⟨t, l, e⟩
    rw [hr] at ha
    simp only at ha
    subst ha
    simp only [parseParams, parseParamsLoop, hr, paramDecls, paramAssigns,
      intercalate_cons_flatMap]
    rw [parseParamsLoop_ok F rest 0 _ _ (fun b hb => h b (List.mem_cons_of_mem _ hb))]
    simp [lit]

/-- C7: on the Modern dialect, for every query with `k >= 1` placeholders and
every list of `k` encodable arguments, the command handed to `conn.Exec` is
`exec sp_executesql N'` S `', N'` D `', ` V, where S is the statement of
`query2Statement` followed by `statusRow`, D is `@p1 t1, @p2 t2, ..., @pk tk` and
V is `@p1=l1, @p2=l2, ..., @pk=lk`, with `(ti, li)` from `go2SqlDataType` of the
i-th argument. -/
theorem ExecuteSql_modern_command {R : Type} (F : Fmt)
    (srv : List GoString → GoString → Except GoError R)
    (sent : List GoString) (q : GoString) (args : List GoValue)
    (hk : 1 ≤ args.length) (hc : q.count qmark = args.length)
    (he : ∀ a ∈ args, (go2SqlDataType F a).2.2 = none) :
    ∃ S, query2Statement q = some (S, args.length) ∧
      ExecuteSql F srv ⟨false, sent⟩ q args =
        some (Conn.Exec srv ⟨false, sent⟩
          (lit "exec sp_executesql N'" ++ (S ++ statusRow) ++ lit "', N'" ++
            (lit ", ").intercalate (paramDecls F 1 args) ++ lit "', " ++
            (lit ", ").intercalate (paramAssigns F 1 args))) := by
  obtain ⟨S, hS⟩ := query2Statement_count q
  rw [hc] at hS
  refine ⟨S, hS, ?_⟩
  have hne : args.length ≠ 0 := by omega
  simp [ExecuteSql, Conn.sybaseMode125, hS, parseParams_ok F args he, hne]

/-- C7 at the query `select ?` with the argument `"John"`. -/
theorem ExecuteSql_modern_command_witness :
    ∃ S, query2Statement (lit "select ?") = some (S, 1) ∧
      ExecuteSql Fmt.blank okServer ⟨false, []⟩ (lit "select ?") [.string (lit "John")] =
        some (Conn.Exec okServer ⟨false, []⟩
          (lit "exec sp_executesql N'" ++ (S ++ statusRow) ++ lit "', N'" ++
            (lit ", ").intercalate (paramDecls Fmt.blank 1 [.string (lit "John")]) ++
            lit "', " ++
            (lit ", ").intercalate (paramAssigns Fmt.blank 1 [.string (lit "John")]))) :=
  ExecuteSql_modern_command Fmt.blank okServer [] (lit "select ?") [.string (lit "John")]
    (by decide) (by decide) (by decide)

/-- C8: on the Modern dialect, for every query `q` without `?` and with an
empty argument list, the command handed to `conn.Exec` is
`exec sp_executesql N'` followed by `quote q`, `statusRow` and the closing
quote: one argument, and not the form with an empty declaration `N''`. -/
theorem ExecuteSql_modern_no_params {R : Type} (F : Fmt)
    (srv : List GoString → GoString → Except GoError R)
    (sent : List GoString) (q : GoString) (hq : qmark ∉ q) :
    ExecuteSql F srv ⟨false, sent⟩ q [] =
      some (Conn.Exec srv ⟨false, sent⟩
        (lit "exec sp_executesql N'" ++ (quote q ++ statusRow) ++ lit "'")) ∧
    lit "exec sp_executesql N'" ++ (quote q ++ statusRow) ++ lit "'" ≠
      lit "exec sp_executesql N'" ++ (quote q ++ statusRow) ++ lit "', N'" ++ lit "" ++
        lit "', " ++ lit "" := by
  constructor
  · simp [ExecuteSql, Conn.sybaseMode125, query2Statement_no_placeholder hq, parseParams,
      parseParamsLoop]
  · intro h
    have h' := congrArg List.length h
    simp only [List.length_append] at h'
    have h1 : (lit "'").length = 1 := by decide
    have h2 : (lit "', N'").length = 5 := by decide
    have h3 : (lit "', ").length = 3 := by decide
    omega

/-- C8 at the query `delete from test_last_insert_id`. -/
theorem ExecuteSql_modern_no_params_witness :
    ExecuteSql Fmt.blank okServer ⟨false, []⟩ (lit "delete from test_last_insert_id") [] =
      some (Conn.Exec okServer ⟨false, []⟩
        (lit "exec sp_executesql N'" ++
          (quote (lit "delete from test_last_insert_id") ++ statusRow) ++ lit "'")) :=
  (ExecuteSql_modern_no_params Fmt.blank okServer [] (lit "delete from test_last_insert_id")
    (by decide)).1

/-! ## The value encoder: nulls and unwrapping -/

/-- C9: a nullable wrapper with `Valid = false` encodes, whatever its payload,
as its declared type with `NULL` and no error (bit, real, int, bigint,
nvarchar (1), datetimeoffset); a nil pointer of a listed pointee type encodes
as the declared type of the pointee with `NULL` and no error, with length 1
for the string and the byte-sequence pointee; the untyped nil encodes as
nvarchar (1) with `NULL`.  The last group states that the declared types of
the nil pointers are those that values of the pointee types get. -/
theorem go2SqlDataType_null (F : Fmt) :
    ((∀ v, go2SqlDataType F (.nullBool v false) = (lit "bit", lit "NULL", none)) ∧
      (∀ v, go2SqlDataType F (.nullFloat64 v false) = (lit "real", lit "NULL", none)) ∧
      (∀ v, go2SqlDataType F (.nullInt32 v false) = (lit "int", lit "NULL", none)) ∧
      (∀ v, go2SqlDataType F (.nullInt64 v false) = (lit "bigint", lit "NULL", none)) ∧
      (∀ v, go2SqlDataType F (.nullString v false) = (lit "nvarchar (1)", lit "NULL", none)) ∧
      (∀ v, go2SqlDataType F (.nullTime v false) =
        (lit "datetimeoffset", lit "NULL", none))) ∧
    (go2SqlDataType F (.ptrBool none) = (lit "bit", lit "NULL", none) ∧
      go2SqlDataType F (.ptrUint8 none) = (lit "tinyint", lit "NULL", none) ∧
      go2SqlDataType F (.ptrInt8 none) = (lit "tinyint", lit "NULL", none) ∧
      go2SqlDataType F (.ptrUint16 none) = (lit "smallint", lit "NULL", none) ∧
      go2SqlDataType F (.ptrInt16 none) = (lit "smallint", lit "NULL", none) ∧
      go2SqlDataType F (.ptrUint32 none) = (lit "int", lit "NULL", none) ∧
      go2SqlDataType F (.ptrInt32 none) = (lit "int", lit "NULL", none) ∧
      go2SqlDataType F (.ptrInt none) = (lit "int", lit "NULL", none) ∧
      go2SqlDataType F (.ptrUint64 none) = (lit "bigint", lit "NULL", none) ∧
      go2SqlDataType F (.ptrInt64 none) = (lit "bigint", lit "NULL", none) ∧
      go2SqlDataType F (.ptrFloat32 none) = (lit "real", lit "NULL", none) ∧
      go2SqlDataType F (.ptrFloat64 none) = (lit "real", lit "NULL", none) ∧
      go2SqlDataType F (.ptrString none) = (lit "nvarchar (1)", lit "NULL", none) ∧
      go2SqlDataType F (.ptrTime none) = (lit "datetimeoffset", lit "NULL", none) ∧
      go2SqlDataType F (.ptrBytes none) = (lit "varbinary (1)", lit "NULL", none)) ∧
    go2SqlDataType F .nil = (lit "nvarchar (1)", lit "NULL", none) ∧
    ((∀ v, (go2SqlDataType F (.bool v)).1 = lit "bit") ∧
      (∀ v, (go2SqlDataType F (.uint8 v)).1 = lit "tinyint") ∧
      (∀ v, (go2SqlDataType F (.int8 v)).1 = lit "tinyint") ∧
      (∀ v, (go2SqlDataType F (.uint16 v)).1 = lit "smallint") ∧
      (∀ v, (go2SqlDataType F (.int16 v)).1 = lit "smallint") ∧
      (∀ v, (go2SqlDataType F (.uint32 v)).1 = lit "int") ∧
      (∀ v, (go2SqlDataType F (.int32 v)).1 = lit "int") ∧
      (∀ v, (go2SqlDataType F (.int v)).1 = lit "int") ∧
      (∀ v, (go2SqlDataType F (.uint64 v)).1 = lit "bigint") ∧
      (∀ v, (go2SqlDataType F (.int64 v)).1 = lit "bigint") ∧
      (∀ v, (go2SqlDataType F (.float32 v)).1 = lit "real") ∧
      (∀ v, (go2SqlDataType F (.float64 v)).1 = lit "real") ∧
      (∀ v, (go2SqlDataType F (.string v)).1 =
        lit "nvarchar (" ++ formatUint (if 1 > v.length then 1 else v.length) ++ lit ")") ∧
      (∀ v, (go2SqlDataType F (.time v)).1 = lit "datetimeoffset") ∧
      (∀ v, (go2SqlDataType F (.bytes v)).1 =
        lit "varbinary (" ++ formatUint (if 1 > v.length then 1 else v.length) ++ lit ")")) := by
  refine ⟨⟨?_, ?_, ?_, ?_, ?_, ?_⟩, ⟨?_, ?_, ?_, ?_, ?_, ?_, ?_, ?_, ?_, ?_, ?_, ?_, ?_, ?_, ?_⟩,
    ?_, ⟨?_, ?_, ?_, ?_, ?_, ?_, ?_, ?_, ?_, ?_, ?_, ?_, ?_, ?_, ?_⟩⟩ <;> intros <;> rfl

/-- C10: a nullable wrapper with `Valid = true` encodes as its payload does,
and a non-nil pointer of a listed pointee type encodes as the value it points
to does (type, literal and error alike); `sql.NullBool{Valid: true, Bool: true}`
gives bit and 1, `sql.NullInt32{Valid: true, Int32: 100}` gives int and 100. -/
theorem go2SqlDataType_unwrap (F : Fmt) :
    ((∀ v, go2SqlDataType F (.nullBool v true) = go2SqlDataType F (.bool v)) ∧
      (∀ v, go2SqlDataType F (.nullFloat64 v true) = go2SqlDataType F (.float64 v)) ∧
      (∀ v, go2SqlDataType F (.nullInt32 v true) = go2SqlDataType F (.int32 v)) ∧
      (∀ v, go2SqlDataType F (.nullInt64 v true) = go2SqlDataType F (.int64 v)) ∧
      (∀ v, go2SqlDataType F (.nullString v true) = go2SqlDataType F (.string v)) ∧
      (∀ v, go2SqlDataType F (.nullTime v true) = go2SqlDataType F (.time v))) ∧
    ((∀ v, go2SqlDataType F (.ptrBool (some v)) = go2SqlDataType F (.bool v)) ∧
      (∀ v, go2SqlDataType F (.ptrUint8 (some v)) = go2SqlDataType F (.uint8 v)) ∧
      (∀ v, go2SqlDataType F (.ptrInt8 (some v)) = go2SqlDataType F (.int8 v)) ∧
      (∀ v, go2SqlDataType F (.ptrUint16 (some v)) = go2SqlDataType F (.uint16 v)) ∧
      (∀ v, go2SqlDataType F (.ptrInt16 (some v)) = go2SqlDataType F (.int16 v)) ∧
      (∀ v, go2SqlDataType F (.ptrUint32 (some v)) = go2SqlDataType F (.uint32 v)) ∧
      (∀ v, go2SqlDataType F (.ptrInt32 (some v)) = go2SqlDataType F (.int32 v)) ∧
      (∀ v, go2SqlDataType F (.ptrInt (some v)) = go2SqlDataType F (.int v)) ∧
      (∀ v, go2SqlDataType F (.ptrUint64 (some v)) = go2SqlDataType F (.uint64 v)) ∧
      (∀ v, go2SqlDataType F (.ptrInt64 (some v)) = go2SqlDataType F (.int64 v)) ∧
      (∀ v, go2SqlDataType F (.ptrFloat32 (some v)) = go2SqlDataType F (.float32 v)) ∧
      (∀ v, go2SqlDataType F (.ptrFloat64 (some v)) = go2SqlDataType F (.float64 v)) ∧
      (∀ v, go2SqlDataType F (.ptrString (some v)) = go2SqlDataType F (.string v)) ∧
      (∀ v, go2SqlDataType F (.ptrTime (some v)) = go2SqlDataType F (.time v)) ∧
      (∀ v, go2SqlDataType F (.ptrBytes (some v)) = go2SqlDataType F (.bytes v))) ∧
    go2SqlDataType F (.nullBool true true) = (lit "bit", lit "1", none) ∧
    go2SqlDataType F (.nullInt32 100 true) = (lit "int", lit "100", none) := by
  refine ⟨⟨?_, ?_, ?_, ?_, ?_, ?_⟩, ⟨?_, ?_, ?_, ?_, ?_, ?_, ?_, ?_, ?_, ?_, ?_, ?_, ?_, ?_, ?_⟩,
    ?_, ?_⟩ <;> intros <;> rfl

/-! ## The value encoder: integers and booleans -/

theorem formatUint_eq_decimalDigits (n : Nat) : formatUint n = decimalDigits n :=
  formatUint_eq_digits n

theorem formatInt_eq_decimalText (z : Int) : formatInt z = decimalText z := by
  simp only [formatInt, decimalText, formatUint_eq_decimalDigits]

/-- C11: an 8-bit integer encodes as tinyint, a 16-bit one as smallint, a
32-bit or default-width one as int, a 64-bit one as bigint, each with the
decimal text of its value, and a boolean as bit with 1 for true and 0 for
false, always without an error; the 8-bit value 7 gives tinyint and 7, the
64-bit value 9000000000 gives bigint and 9000000000, true gives bit and 1. -/
theorem go2SqlDataType_width (F : Fmt) :
    ((∀ v : Nat, go2SqlDataType F (.uint8 v) = (lit "tinyint", decimalDigits v, none)) ∧
      (∀ v : Int, go2SqlDataType F (.int8 v) = (lit "tinyint", decimalText v, none)) ∧
      (∀ v : Nat, go2SqlDataType F (.uint16 v) = (lit "smallint", decimalDigits v, none)) ∧
      (∀ v : Int, go2SqlDataType F (.int16 v) = (lit "smallint", decimalText v, none)) ∧
      (∀ v : Nat, go2SqlDataType F (.uint32 v) = (lit "int", decimalDigits v, none)) ∧
      (∀ v : Int, go2SqlDataType F (.int32 v) = (lit "int", decimalText v, none)) ∧
      (∀ v : Int, go2SqlDataType F (.int v) = (lit "int", decimalText v, none)) ∧
      (∀ v : Nat, go2SqlDataType F (.uint64 v) = (lit "bigint", decimalDigits v, none)) ∧
      (∀ v : Int, go2SqlDataType F (.int64 v) = (lit "bigint", decimalText v, none))) ∧
    (go2SqlDataType F (.bool true) = (lit "bit", lit "1", none) ∧
      go2SqlDataType F (.bool false) = (lit "bit", lit "0", none)) ∧
    (go2SqlDataType F (.uint8 7) = (lit "tinyint", lit "7", none) ∧
      go2SqlDataType F (.int8 7) = (lit "tinyint", lit "7", none) ∧
      go2SqlDataType F (.uint64 9000000000) = (lit "bigint", lit "9000000000", none) ∧
      go2SqlDataType F (.int64 9000000000) = (lit "bigint", lit "9000000000", none)) := by
  refine ⟨⟨fun v => ?_, fun v => ?_, fun v => ?_, fun v => ?_, fun v => ?_, fun v => ?_,
    fun v => ?_, fun v => ?_, fun v => ?_⟩, ⟨rfl, rfl⟩, ⟨rfl, rfl, rfl, rfl⟩⟩
  all_goals first
    | (rw [← formatUint_eq_decimalDigits]; rfl)
    | (rw [← formatInt_eq_decimalText]; rfl)

/-! ## The value encoder: byte sequences and texts -/

theorem go2SqlDataType_max_eq (a b : Nat) : go2SqlDataType.max a b = max a b := by
  unfold go2SqlDataType.max
  split <;> omega

theorem toNat_lt_256 (x : Byte) : x.toNat < 256 := UInt8.toNat_lt_size x

theorem ofNat_toNat (x : Byte) : UInt8.ofNat x.toNat = x := by
  apply UInt8.eq_of_toBitVec_eq
  apply BitVec.eq_of_toNat_eq
  have h := toNat_lt_256 x
  simp only [UInt8.ofNat, UInt8.toNat, BitVec.toNat_ofNat] at h ⊢
  exact Nat.mod_eq_of_lt h

theorem hexDigit_eq_nibbleChar {d : Nat} (h : d < 16) : hexDigit d = nibbleChar d := by
  interval_cases d <;> rfl

theorem hexValue_nibbleChar {d : Nat} (h : d < 16) : hexValue (nibbleChar d) = some d := by
  interval_cases d <;> decide

theorem nibbleChar_mem {d : Nat} (h : d < 16) : nibbleChar d ∈ lit "0123456789abcdef" := by
  interval_cases d <;> decide

theorem formatHex_cons (x : Byte) (b : List Byte) :
    formatHex (x :: b) =
      nibbleChar (x.toNat / 16) :: nibbleChar (x.toNat % 16) :: formatHex b := by
  have h1 : x.toNat / 16 < 16 := by have := toNat_lt_256 x; omega
  have h2 : x.toNat % 16 < 16 := Nat.mod_lt _ (by decide)
  simp [formatHex, List.flatMap_cons, hexDigit_eq_nibbleChar h1, hexDigit_eq_nibbleChar h2]

theorem formatHex_length : ∀ b : List Byte, (formatHex b).length = 2 * b.length
  | [] => rfl
  | x :: b => by
    rw [formatHex_cons, List.length_cons, List.length_cons, formatHex_length b,
      List.length_cons]
    omega

theorem formatHex_mem : ∀ (b : List Byte) (c : Byte), c ∈ formatHex b →
    c ∈ lit "0123456789abcdef"
  | [], c, h => by simp [formatHex] at h
  | x :: b, c, h => by
    rw [formatHex_cons] at h
    have h1 : x.toNat / 16 < 16 := by have := toNat_lt_256 x; omega
    have h2 : x.toNat % 16 < 16 := Nat.mod_lt _ (by decide)
    rcases List.mem_cons.1 h with e | h
    · rw [e]; exact nibbleChar_mem h1
    · rcases List.mem_cons.1 h with e | h
      · rw [e]; exact nibbleChar_mem h2
      · exact formatHex_mem b c h

theorem formatHex_getElem? : ∀ (b : List Byte) (i : Nat),
    (formatHex b)[2 * i]? = (b[i]?).map (fun x => nibbleChar (x.toNat / 16)) ∧
    (formatHex b)[2 * i + 1]? = (b[i]?).map (fun x => nibbleChar (x.toNat % 16))
  | [], i => by simp [formatHex]
  | x :: b, 0 => by simp [formatHex_cons]
  | x :: b, i + 1 => by
    have ih := formatHex_getElem? b i
    have e : 2 * (i + 1) = 2 * i + 1 + 1 := by omega
    rw [formatHex_cons, e]
    simp only [List.getElem?_cons_succ]
    exact ih

theorem hexDecode_formatHex : ∀ b : List Byte, hexDecode (formatHex b) = some b
  | [] => rfl
  | x :: b => by
    have h1 : x.toNat / 16 < 16 := by have := toNat_lt_256 x; omega
    have h2 : x.toNat % 16 < 16 := Nat.mod_lt _ (by decide)
    rw [formatHex_cons, hexDecode, hexValue_nibbleChar h1, hexValue_nibbleChar h2,
      hexDecode_formatHex b]
    simp only [Nat.div_add_mod, ofNat_toNat]

/-- C12 as stated fails: the type name has a blank before the bracket, so
the encoding of the bytes 0, 1, 2, 255 is not `varbinary(4)` with
`0x000102ff`. -/
theorem go2SqlDataType_bytes_example_not_verbatim :
    go2SqlDataType Fmt.blank (.bytes [0, 1, 2, 255]) ≠
      (lit "varbinary(4)", lit "0x000102ff", none) := by
  decide

/-- C12, amended: encoding the byte sequence 0, 1, 2, 255 gives the pair
`varbinary (4)`, with a blank before the bracket, and `0x000102ff`, with no
error. -/
theorem go2SqlDataType_bytes_example (F : Fmt) :
    go2SqlDataType F (.bytes [0, 1, 2, 255]) =
      (lit "varbinary (4)", lit "0x000102ff", none) :=
  rfl

/-- C13: every byte sequence `b`, the empty one too, encodes without an error;
the length in the varbinary type name is the decimal text of `max 1 (len b)`;
the literal is `0x` followed by `2 * len b` lowercase hexadecimal digits, those
at places `2i` and `2i+1` being the high and the low nibble of `b[i]`, and
hex-decoding them gives back `b`. -/
theorem go2SqlDataType_bytes (F : Fmt) (b : List Byte) :
    go2SqlDataType F (.bytes b) =
      (lit "varbinary (" ++ decimalDigits (max 1 b.length) ++ lit ")",
        lit "0x" ++ formatHex b, none) ∧
    (formatHex b).length = 2 * b.length ∧
    (∀ c ∈ formatHex b, c ∈ lit "0123456789abcdef") ∧
    (∀ i : Nat,
      (formatHex b)[2 * i]? = (b[i]?).map (fun x => nibbleChar (x.toNat / 16)) ∧
      (formatHex b)[2 * i + 1]? = (b[i]?).map (fun x => nibbleChar (x.toNat % 16))) ∧
    hexDecode (formatHex b) = some b := by
  refine ⟨?_, formatHex_length b, formatHex_mem b, formatHex_getElem? b,
    hexDecode_formatHex b⟩
  rw [← formatUint_eq_decimalDigits, ← go2SqlDataType_max_eq]
  rfl

/-- C13 at the bytes 0, 1, 2, 255: the digit `f` of the literal is a lowercase
hexadecimal digit, and decoding the digits gives the bytes back. -/
theorem go2SqlDataType_bytes_witness :
    (102 : Byte) ∈ formatHex [0, 1, 2, 255] ∧
    (102 : Byte) ∈ lit "0123456789abcdef" ∧
    hexDecode (formatHex [0, 1, 2, 255]) = some [0, 1, 2, 255] :=
  ⟨by decide,
    (go2SqlDataType_bytes Fmt.blank [0, 1, 2, 255]).2.2.1 102 (by decide),
    (go2SqlDataType_bytes Fmt.blank [0, 1, 2, 255]).2.2.2.2⟩

/-- C14: every text `s` encodes without an error; the length in the nvarchar
type name is the decimal text of `max 1 (len s)`, with `len s` the length of
the text before quoting; the literal is `quote s` between two single quotes.
`John` gives `nvarchar (4)` and `'John'`, the empty text gives length 1 and
`''`, `O'Neil` gives length 6 and `'O''Neil'`. -/
theorem go2SqlDataType_text (F : Fmt) :
    (∀ s : GoString, go2SqlDataType F (.string s) =
      (lit "nvarchar (" ++ decimalDigits (max 1 s.length) ++ lit ")",
        lit "'" ++ quote s ++ lit "'", none)) ∧
    go2SqlDataType F (.string (lit "John")) = (lit "nvarchar (4)", lit "'John'", none) ∧
    go2SqlDataType F (.string (lit "")) = (lit "nvarchar (1)", lit "''", none) ∧
    go2SqlDataType F (.string (lit "O'Neil")) =
      (lit "nvarchar (6)", lit "'O''Neil'", none) := by
  refine ⟨fun s => ?_, rfl, rfl, rfl⟩
  rw [← formatUint_eq_decimalDigits, ← go2SqlDataType_max_eq]
  rfl

/-! ## Values without an encoding -/

/-- The encoder returns an error exactly for the values of a type that its
switches do not list. -/
theorem go2SqlDataType_error_iff (F : Fmt) (v : GoValue) :
    (go2SqlDataType F v).2.2 ≠ none ↔ ∃ name text, v = .other name text := by
  cases v with
  | other name text => exact ⟨fun _ => ⟨name, text, rfl⟩, fun _ => by simp [go2SqlDataType,
      go2SqlDataType.sqlSwitch, go2SqlDataType.pointerSwitch, go2SqlDataType.classify]⟩
  | nullBool v valid => cases valid <;> simp [go2SqlDataType, go2SqlDataType.sqlSwitch,
      go2SqlDataType.classify]
  | nullFloat64 v valid => cases valid <;> simp [go2SqlDataType, go2SqlDataType.sqlSwitch,
      go2SqlDataType.classify]
  | nullInt32 v valid => cases valid <;> simp [go2SqlDataType, go2SqlDataType.sqlSwitch,
      go2SqlDataType.classify]
  | nullInt64 v valid => cases valid <;> simp [go2SqlDataType, go2SqlDataType.sqlSwitch,
      go2SqlDataType.classify]
  | nullString v valid => cases valid <;> simp [go2SqlDataType, go2SqlDataType.sqlSwitch,
      go2SqlDataType.classify]
  | nullTime v valid => cases valid <;> simp [go2SqlDataType, go2SqlDataType.sqlSwitch,
      go2SqlDataType.classify]
  | ptrBool p | ptrUint8 p | ptrInt8 p | ptrUint16 p | ptrInt16 p | ptrUint32 p | ptrInt32 p
  | ptrInt p | ptrUint64 p | ptrInt64 p | ptrFloat32 p | ptrFloat64 p | ptrString p
  | ptrTime p | ptrBytes p =>
    cases p <;> simp [go2SqlDataType, go2SqlDataType.sqlSwitch, go2SqlDataType.pointerSwitch,
      go2SqlDataType.deref, go2SqlDataType.classify]
  | _ => simp [go2SqlDataType, go2SqlDataType.sqlSwitch, go2SqlDataType.pointerSwitch,
      go2SqlDataType.classify]

/-- C15: a value of a type that the switches do not list (carried with the
name `%T` gives for its type) makes `go2SqlDataType` return empty type and
literal texts with the error `unknown dataType` and the type name; no other
value gives an error; and `parseParams` on any argument list that holds such
a value returns two empty texts and an error. -/
theorem go2SqlDataType_unmapped (F : Fmt) (name text : GoString) :
    go2SqlDataType F (.other name text) =
      (lit "", lit "", some (lit "unknown dataType " ++ name)) ∧
    (∀ v, (go2SqlDataType F v).2.2 ≠ none ↔ ∃ n t, v = .other n t) ∧
    ∀ args : List GoValue, GoValue.other name text ∈ args →
      ∃ err, parseParams F args = (lit "", lit "", some err) := by
  refine ⟨rfl, go2SqlDataType_error_iff F, fun args h => ?_⟩
  exact parseParams_error F args
    ⟨_, h, (go2SqlDataType_error_iff F _).2 ⟨name, text, rfl⟩⟩

/-- C15 at the argument list `"John"`, a value of type `struct {}`. -/
theorem go2SqlDataType_unmapped_witness :
    ∃ err, parseParams Fmt.blank [.string (lit "John"), .other (lit "struct {}") (lit "{}")] =
      (lit "", lit "", some err) :=
  (go2SqlDataType_unmapped Fmt.blank (lit "struct {}") (lit "{}")).2.2
    [.string (lit "John"), .other (lit "struct {}") (lit "{}")] (by decide)

/-! ## The statement quoter: escaping -/

theorem wellQuoted_cons_ne {x : Byte} (h : x ≠ squote) (t : GoString) :
    wellQuoted (x :: t) = wellQuoted t := by
  cases t with
  | nil => simp [wellQuoted, h]
  | cons y t => simp [wellQuoted, h]

theorem wellQuoted_pair (t : GoString) : wellQuoted (squote :: squote :: t) = wellQuoted t := by
  simp [wellQuoted]

theorem wellQuoted_replaceEach : ∀ s : GoString,
    wellQuoted (replaceEach squote [squote, squote] s) = true
  | [] => rfl
  | x :: s => by
    have ih := wellQuoted_replaceEach s
    by_cases hx : x = squote
    · subst hx
      rw [replaceEach_cons_self]
      exact (wellQuoted_pair _).trans ih
    · have e : replaceEach squote [squote, squote] (x :: s) =
          x :: replaceEach squote [squote, squote] s := by
        simp [replaceEach, List.flatMap_cons, hx]
      rw [e, wellQuoted_cons_ne hx]
      exact ih

theorem wellQuoted_quote (s : GoString) : wellQuoted (quote s) = true := by
  rw [quote_eq_replaceEach]
  exact wellQuoted_replaceEach s

theorem wellQuoted_of_not_mem : ∀ {t : GoString}, squote ∉ t → wellQuoted t = true
  | [], _ => rfl
  | x :: t, h => by
    have hx : x ≠ squote := fun e => h (by simp [e])
    have ht : squote ∉ t := fun e => h (by simp [e])
    rw [wellQuoted_cons_ne hx]
    exact wellQuoted_of_not_mem ht

theorem wellQuoted_append : ∀ (a b : GoString), wellQuoted a = true → wellQuoted b = true →
    wellQuoted (a ++ b) = true
  | [], b, _, hb => hb
  | [x], b, ha, hb => by
    have hx : x ≠ squote := by simpa [wellQuoted] using ha
    rw [List.singleton_append, wellQuoted_cons_ne hx]
    exact hb
  | x :: y :: a, b, ha, hb => by
    by_cases hx : x = squote
    · subst hx
      have hy : y = squote ∧ wellQuoted a = true := by simpa [wellQuoted] using ha
      obtain ⟨hy, ha'⟩ := hy
      subst hy
      rw [List.cons_append, List.cons_append, wellQuoted_pair]
      exact wellQuoted_append a b ha' hb
    · rw [wellQuoted_cons_ne hx] at ha
      rw [List.cons_append, wellQuoted_cons_ne hx]
      exact wellQuoted_append (y :: a) b ha hb

/-- What stands behind a text that does not end in a single quote is well
quoted when the whole is. -/
theorem wellQuoted_drop_front : ∀ (pre u : GoString), wellQuoted (pre ++ u) = true →
    pre.getLast? ≠ some squote → wellQuoted u = true
  | [], _, h, _ => h
  | [x], u, h, hl => by
    have hx : x ≠ squote := by simpa using hl
    rwa [List.singleton_append, wellQuoted_cons_ne hx] at h
  | x :: y :: p, u, h, hl => by
    by_cases hx : x = squote
    · subst hx
      have hy : y = squote ∧ wellQuoted (p ++ u) = true := by simpa [wellQuoted] using h
      obtain ⟨hy, hp⟩ := hy
      subst hy
      cases p with
      | nil => simp at hl
      | cons z p =>
        refine wellQuoted_drop_front (z :: p) u hp ?_
        simpa [List.getLast?_cons_cons] using hl
    · rw [List.cons_append, wellQuoted_cons_ne hx] at h
      refine wellQuoted_drop_front (y :: p) u h ?_
      simpa [List.getLast?_cons_cons] using hl

/-- A well-quoted text begins with an even number of single quotes. -/
theorem wellQuoted_leading_even : ∀ (n : Nat) (post : GoString),
    wellQuoted (List.replicate n squote ++ post) = true → post.head? ≠ some squote → Even n
  | 0, _, _, _ => ⟨0, rfl⟩
  | 1, post, h, hp => by
    cases post with
    | nil => simp [wellQuoted] at h
    | cons y t =>
      have hy : y = squote := by
        have : y = squote ∧ wellQuoted t = true := by simpa [wellQuoted] using h
        exact this.1
      simp [hy] at hp
  | n + 2, post, h, hp => by
    have e : List.replicate (n + 2) squote ++ post =
        squote :: squote :: (List.replicate n squote ++ post) := by
      simp [List.replicate_succ]
    rw [e, wellQuoted_pair] at h
    have := wellQuoted_leading_even n post h hp
    exact Even.add this even_two

theorem wellQuoted_runs_even {t : GoString} (ht : wellQuoted t = true)
    (pre post : GoString) (n : Nat) (h : t = pre ++ List.replicate n squote ++ post)
    (hpre : pre.getLast? ≠ some squote) (hpost : post.head? ≠ some squote) : Even n := by
  subst h
  rw [List.append_assoc] at ht
  exact wellQuoted_leading_even n post (wellQuoted_drop_front pre _ ht hpre) hpost

/-- C16: for every text `s`, every maximal run of consecutive single quotes in
`quote s` (a run that no single quote precedes and none follows) has even
length, so `quote s` holds no unescaped single quote. -/
theorem quote_runs_even (s pre post : GoString) (n : Nat)
    (h : quote s = pre ++ List.replicate n squote ++ post)
    (hpre : pre.getLast? ≠ some squote) (hpost : post.head? ≠ some squote) : Even n :=
  wellQuoted_runs_even (wellQuoted_quote s) pre post n h hpre hpost

/-- C16 at the text `O'Neil`: the run in `O''Neil` has length 2. -/
theorem quote_runs_even_witness :
    quote (lit "O'Neil") = lit "O" ++ List.replicate 2 squote ++ lit "Neil" ∧ Even 2 :=
  ⟨by decide,
    quote_runs_even (lit "O'Neil") (lit "O") (lit "Neil") 2 (by decide) (by decide)
      (by decide)⟩

/-! ## The statement quoter: reference definition and inverse -/

theorem replaceEach_cons_ne {α : Type} [DecidableEq α] {c x : α} (h : x ≠ c)
    (new s : List α) : replaceEach c new (x :: s) = x :: replaceEach c new s := by
  simp [replaceEach, List.flatMap_cons, h]

theorem replaceEach_double_length {α : Type} [DecidableEq α] (c : α) : ∀ s : List α,
    (replaceEach c [c, c] s).length = s.length + s.count c
  | [] => rfl
  | x :: s => by
    have ih := replaceEach_double_length c s
    by_cases hx : x = c
    · subst hx
      rw [replaceEach_cons_self, List.length_append, ih, List.count_cons_self]
      simp only [List.length_cons, List.length_nil]
      omega
    · have hc : List.count c (x :: s) = List.count c s :=
        List.count_cons_of_ne (fun e => hx e.symm) s
      rw [replaceEach_cons_ne hx, List.length_cons, ih, hc]
      simp only [List.length_cons]
      omega

/-- C17: `quote` is defined on every text and is the byte-wise replacement:
`quote s` is `s` with each single quote replaced by two single quotes and
every other byte kept in place; its length is `len s` plus the number of
single quotes in `s`; and `quote s = s` when `s` holds no single quote. -/
theorem quote_reference (s : GoString) :
    quote s = s.flatMap (fun x => if x = squote then [squote, squote] else [x]) ∧
    (quote s).length = s.length + s.count squote ∧
    (squote ∉ s → quote s = s) := by
  refine ⟨quote_eq_replaceEach s, ?_, quote_of_not_mem⟩
  rw [quote_eq_replaceEach]
  exact replaceEach_double_length squote s

/-- C17 at the text `select 1`, which holds no single quote. -/
theorem quote_reference_witness : quote (lit "select 1") = lit "select 1" :=
  (quote_reference (lit "select 1")).2.2 (by decide)

theorem unquote_cons_ne {x : Byte} (h : x ≠ squote) (t : GoString) :
    unquote (x :: t) = x :: unquote t := by
  cases t with
  | nil => rfl
  | cons y t => simp [unquote, h]

theorem unquote_pair (t : GoString) : unquote (squote :: squote :: t) = squote :: unquote t := by
  simp [unquote]

theorem unquote_replaceEach : ∀ s : GoString,
    unquote (replaceEach squote [squote, squote] s) = s
  | [] => rfl
  | x :: s => by
    have ih := unquote_replaceEach s
    by_cases hx : x = squote
    · subst hx
      rw [replaceEach_cons_self]
      show unquote (squote :: squote :: replaceEach squote [squote, squote] s) = squote :: s
      rw [unquote_pair, ih]
    · rw [replaceEach_cons_ne hx, unquote_cons_ne hx, ih]

theorem unquote_quote (s : GoString) : unquote (quote s) = s := by
  rw [quote_eq_replaceEach]
  exact unquote_replaceEach s

/-- C19: replacing, left to right, each pair of consecutive single quotes in
`quote s` by one single quote gives back `s`; so `quote` is injective, and the
text in the literal that `go2SqlDataType` gives for a text `s`, which is
`quote s` between two single quotes, is recovered exactly. -/
theorem quote_left_inverse :
    (∀ s : GoString, unquote (quote s) = s) ∧
    (∀ s1 s2 : GoString, quote s1 = quote s2 → s1 = s2) ∧
    (∀ (F : Fmt) (s : GoString),
      (go2SqlDataType F (.string s)).2.1 = lit "'" ++ quote s ++ lit "'" ∧
      unquote (((go2SqlDataType F (.string s)).2.1.drop 1).dropLast) = s) := by
  refine ⟨unquote_quote, fun s1 s2 h => ?_, fun F s => ⟨rfl, ?_⟩⟩
  · have := congrArg unquote h
    rwa [unquote_quote, unquote_quote] at this
  · have e : (go2SqlDataType F (.string s)).2.1 = lit "'" ++ quote s ++ lit "'" := rfl
    have e2 : lit "'" ++ quote s ++ lit "'" = squote :: (quote s ++ [squote]) := rfl
    rw [e, e2, List.drop_one, List.tail_cons, List.dropLast_concat]
    exact unquote_quote s

/-- C19 at the texts `it's` and `it''s`: their quoted forms differ. -/
theorem quote_left_inverse_witness : quote (lit "it's") ≠ quote (lit "it''s") :=
  fun h => absurd (quote_left_inverse.2.1 (lit "it's") (lit "it''s") h) (by decide)

/-! ## The Legacy dialect: the marker text in the query -/

/-- C18, on the code: on the Legacy dialect the query `select '$bindkey', ?`
has one `?` and is given one argument, but after `?` is replaced there are two
markers; the loop runs twice and reads `params[1]`, which does not exist: the
call ends in a run-time panic. -/
theorem executeSqlSybase125_marker_in_query {R : Type} (F : Fmt)
    (srv : List GoString → GoString → Except GoError R) (sent : List GoString) :
    (lit "select '$bindkey', ?").count qmark = [GoValue.int 3].length ∧
    (FindAllSubmatchIndex (lit "$bindkey")
      (Replace (lit "select '$bindkey', ?") (lit "?") (lit "$bindkey") (-1))).length = 2 ∧
    [GoValue.int 3][1]? = none ∧
    executeSqlSybase125 F srv ⟨true, sent⟩ (lit "select '$bindkey', ?") [.int 3] = none :=
  ⟨by decide, by decide, rfl, rfl⟩

/-! ## Single quotes in the declarations -/

theorem squote_not_mem_sized (pre : GoString) (h : squote ∉ pre) (n : Nat) :
    squote ∉ pre ++ formatUint n ++ lit ")" := by
  simp only [List.mem_append, not_or]
  exact ⟨⟨h, squote_not_mem_formatUint n⟩, by decide⟩

/-- No type name that the encoder returns holds a single quote. -/
theorem squote_not_mem_sqlType (F : Fmt) (v : GoValue) : squote ∉ (go2SqlDataType F v).1 := by
  have hn : ∀ n, squote ∉ lit "nvarchar (" ++ formatUint n ++ lit ")" :=
    squote_not_mem_sized _ (by decide)
  have hb : ∀ n, squote ∉ lit "varbinary (" ++ formatUint n ++ lit ")" :=
    squote_not_mem_sized _ (by decide)
  cases v with
  | nil => exact (by decide : squote ∉ lit "nvarchar (1)")
  | bool _ => exact (by decide : squote ∉ lit "bit")
  | uint8 _ | int8 _ => exact (by decide : squote ∉ lit "tinyint")
  | uint16 _ | int16 _ => exact (by decide : squote ∉ lit "smallint")
  | uint32 _ | int32 _ | int _ => exact (by decide : squote ∉ lit "int")
  | uint64 _ | int64 _ => exact (by decide : squote ∉ lit "bigint")
  | float32 _ | float64 _ => exact (by decide : squote ∉ lit "real")
  | string s => exact hn _
  | time _ => exact (by decide : squote ∉ lit "datetimeoffset")
  | bytes b => exact hb _
  | nullBool _ valid => cases valid <;> exact (by decide : squote ∉ lit "bit")
  | nullFloat64 _ valid => cases valid <;> exact (by decide : squote ∉ lit "real")
  | nullInt32 _ valid => cases valid <;> exact (by decide : squote ∉ lit "int")
  | nullInt64 _ valid => cases valid <;> exact (by decide : squote ∉ lit "bigint")
  | nullString _ valid =>
    cases valid
    · exact (by decide : squote ∉ lit "nvarchar (1)")
    · exact hn _
  | nullTime _ valid => cases valid <;> exact (by decide : squote ∉ lit "datetimeoffset")
  | ptrBool p => cases p <;> exact (by decide : squote ∉ lit "bit")
  | ptrUint8 p | ptrInt8 p => cases p <;> exact (by decide : squote ∉ lit "tinyint")
  | ptrUint16 p | ptrInt16 p => cases p <;> exact (by decide : squote ∉ lit "smallint")
  | ptrUint32 p | ptrInt32 p | ptrInt p => cases p <;> exact (by decide : squote ∉ lit "int")
  | ptrUint64 p | ptrInt64 p => cases p <;> exact (by decide : squote ∉ lit "bigint")
  | ptrFloat32 p | ptrFloat64 p => cases p <;> exact (by decide : squote ∉ lit "real")
  | ptrString p =>
    cases p
    · exact (by decide : squote ∉ lit "nvarchar (1)")
    · exact hn _
  | ptrTime p => cases p <;> exact (by decide : squote ∉ lit "datetimeoffset")
  | ptrBytes p =>
    cases p
    · exact (by decide : squote ∉ lit "varbinary (1)")
    · exact hb _
  | other _ _ => exact (by decide : squote ∉ lit "")

theorem squote_not_mem_paramName (i : Nat) : squote ∉ lit "@p" ++ formatUint i := by
  simp only [List.mem_append, not_or]
  exact ⟨by decide, squote_not_mem_formatUint i⟩

theorem squote_not_mem_paramDecls (F : Fmt) : ∀ (args : List GoValue) (i : Nat),
    ∀ d ∈ paramDecls F i args, squote ∉ d
  | [], _, d, h => by simp [paramDecls] at h
  | a :: rest, i, d, h => by
    rw [paramDecls] at h
    rcases List.mem_cons.1 h with e | h
    · subst e
      simp only [List.mem_append, not_or]
      exact ⟨⟨⟨by decide, squote_not_mem_formatUint i⟩, by decide⟩,
        squote_not_mem_sqlType F a⟩
    · exact squote_not_mem_paramDecls F rest (i + 1) d h

theorem not_mem_intercalate {α : Type} {c : α} {sep : List α} (hsep : c ∉ sep) :
    ∀ (xs : List (List α)), (∀ x ∈ xs, c ∉ x) → c ∉ sep.intercalate xs
  | [], _ => by simp [List.intercalate]
  | x :: xs, h => by
    rw [intercalate_cons_flatMap]
    simp only [List.mem_append, List.mem_flatMap, not_or, not_exists, not_and]
    refine ⟨h x (by simp), fun y hy => ⟨hsep, h y (List.mem_cons_of_mem _ hy)⟩⟩

theorem parseParams_encodable (F : Fmt) (args : List GoValue)
    (h : (parseParams F args).2.2 = none) : ∀ a ∈ args, (go2SqlDataType F a).2.2 = none := by
  intro a ha
  by_contra hne
  obtain ⟨err, e⟩ := parseParams_error F args ⟨a, ha, hne⟩
  rw [e] at h
  simp at h

/-- C20: when `parseParams` succeeds on an argument list, the declarations it
returns hold no single quote (no type name of `go2SqlDataType` and no name
`@pN` holds one), and `statusRow` holds none; so in the text between `N'` and
the closing quote that carries the statement of `query2Statement` and
`statusRow`, every maximal run of single quotes has even length, and the text
that carries the declarations has no single quote at all. -/
theorem parseParams_decls_quote_free (F : Fmt) (args : List GoValue)
    (h : (parseParams F args).2.2 = none) :
    squote ∉ (parseParams F args).1 ∧
    (∀ v, squote ∉ (go2SqlDataType F v).1) ∧
    (∀ i, squote ∉ lit "@p" ++ formatUint i) ∧
    squote ∉ statusRow ∧
    ∀ (q S : GoString) (k : Nat), query2Statement q = some (S, k) →
      ∀ (pre post : GoString) (n : Nat),
        S ++ statusRow = pre ++ List.replicate n squote ++ post →
        pre.getLast? ≠ some squote → post.head? ≠ some squote → Even n := by
  have hs : squote ∉ statusRow := by decide
  refine ⟨?_, squote_not_mem_sqlType F, squote_not_mem_paramName, hs, ?_⟩
  · rw [parseParams_ok F args (parseParams_encodable F args h)]
    exact not_mem_intercalate (by decide) _ (squote_not_mem_paramDecls F args 1)
  · intro q S k hq pre post n e hpre hpost
    obtain ⟨p0, ps, eq, hfree⟩ := exists_pieces qmark q
    have hS : S = quote (p0 ++ numberedPieces 1 ps) := by
      rw [eq, query2Statement_intercalate p0 ps hfree] at hq
      simp only [Option.some.injEq, Prod.mk.injEq] at hq
      exact hq.1.symm
    have hw : wellQuoted (S ++ statusRow) = true := by
      rw [hS]
      exact wellQuoted_append _ _ (wellQuoted_quote _) (wellQuoted_of_not_mem hs)
    exact wellQuoted_runs_even hw pre post n e hpre hpost

/-- C20 at the arguments `O'Neil` and 30: the declarations
`@p1 nvarchar (6), @p2 int` hold no single quote. -/
theorem parseParams_decls_quote_free_witness :
    squote ∉ (parseParams Fmt.blank [.string (lit "O'Neil"), .int 30]).1 :=
  (parseParams_decls_quote_free Fmt.blank [.string (lit "O'Neil"), .int 30] (by decide)).1

end Freetds
